import Mathlib

/-!
Verification of the dynamic configuration management platform.

This file gives a shallow embedding, in Lean 4, of the core of the
configuration-resolution service (rule engine, rule composer, conditional
rule loader, configuration store) and proves properties of that embedding.

Modelling conventions, used throughout:
* JavaScript runtime values are modelled by the inductive type `JValue`
  (undefined / null / boolean / number / string / array / object).  Objects
  are insertion-ordered association lists, matching JS property order.
* JS numbers are modelled as `Int`.  Every number manipulated by the code
  under verification (priorities, timestamps, percentages, 32-bit hash
  arithmetic) is integral, so no floating-point behaviour is lost.
* JS strings are modelled as Lean `String`; `charCodeAt` is modelled by the
  code point of the character, which agrees with UTF-16 code units on the
  Basic Multilingual Plane.
* Exceptions (`throw new Error`, `TypeError`) are modelled with
  `Except String`.
* Mutable instance state (the rule-evaluation memo cache, the conditional
  loader's cache, the specification store) is passed explicitly.
-/

/-- A JavaScript runtime value: undefined, null, boolean, number (integral),
string, array, or object with insertion-ordered fields. -/
inductive JValue where
  | undef
  | null
  | bool (b : Bool)
  | num (n : Int)
  | str (s : String)
  | arr (elems : List JValue)
  | obj (fields : List (String × JValue))
deriving Repr

/-- Property assignment `m[k] = v` on an insertion-ordered association list:
the first entry with key `k` is updated in place, otherwise `(k, v)` is
appended, matching JS property-order semantics. -/
def setKey {α : Type} : List (String × α) → String → α → List (String × α)
  | [], k, v => [(k, v)]
  | (k', v') :: rest, k, v =>
      if k' == k then (k', v) :: rest else (k', v') :: setKey rest k v

/-- Property read on an association list: the first entry with the key. -/
def lookupKey {α : Type} : List (String × α) → String → Option α
  | [], _ => none
  | (k', v) :: rest, k => if k' == k then some v else lookupKey rest k

/-- Whether an association list has an entry for the key. -/
def hasKey {α : Type} (m : List (String × α)) (k : String) : Bool :=
  (lookupKey m k).isSome

/-- Sequential assignment of several properties, as in an object spread
`\x7b ...a, ...b \x7d` where the fields of `b` overwrite those of `a`. -/
def setAll {α : Type} (acc : List (String × α)) (fs : List (String × α)) :
    List (String × α) :=
  fs.foldl (fun a kv => setKey a kv.1 kv.2) acc

/-- Fields contributed by spreading a list of array elements: index keys
`"0"`, `"1"`, ... paired with the elements. -/
def enumFieldsFrom (i : Nat) : List JValue → List (String × JValue)
  | [] => []
  | v :: rest => (toString i, v) :: enumFieldsFrom (i + 1) rest

/-- Fields contributed by spreading a string: index keys paired with
one-character strings, as in `\x7b ..."ab" \x7d = \x7b 0:"a", 1:"b" \x7d`. -/
def strCharFieldsFrom (i : Nat) : List Char → List (String × JValue)
  | [] => []
  | c :: rest => (toString i, JValue.str (String.singleton c)) :: strCharFieldsFrom (i + 1) rest

/-- Own enumerable properties taken by a JS object spread `\x7b ...v \x7d`:
an object's fields, an array's index-keyed elements, a string's index-keyed
characters, and nothing for the remaining primitives. -/
def jsSpread : JValue → List (String × JValue)
  | .obj fs => fs
  | .arr xs => enumFieldsFrom 0 xs
  | .str s => strCharFieldsFrom 0 s.toList
  | _ => []

/-- JS `v instanceof Object`: true exactly for objects and arrays. -/
def isObjectInstance : JValue → Bool
  | .obj _ => true
  | .arr _ => true
  | _ => false

/-- JS `Array.isArray`. -/
def isArr : JValue → Bool
  | .arr _ => true
  | _ => false

/-- The JS `in` operator `k in t`.  It is defined on objects and arrays
(`"length"` and in-range indices count for arrays) and throws a `TypeError`
on every primitive. -/
def keyInJs (k : String) (t : JValue) : Except String Bool :=
  match t with
  | .obj fs => .ok (hasKey fs k)
  | .arr xs =>
      .ok (k == "length" ||
        (match k.toNat? with
         | some i => decide (i < xs.length)
         | none => false))
  | _ => .error "TypeError: cannot use in operator on a primitive"

/-- Property read `t[k]`, yielding `undefined` when the property is absent.
Only reached in the development when `t` is an object or an array. -/
def getProp (t : JValue) (k : String) : JValue :=
  match t with
  | .obj fs => (lookupKey fs k).getD .undef
  | .arr xs =>
      if k == "length" then .num xs.length
      else
        match k.toNat? with
        | some i => (xs[i]?).getD .undef
        | none => .undef
  | _ => (.undef : JValue)

/-- JS truthiness. -/
def jsTruthy : JValue → Bool
  | .undef => false
  | .null => false
  | .bool b => b
  | .num n => n != 0
  | .str s => s != ""
  | .arr _ => true
  | .obj _ => true

/-- JS `a || b` on values. -/
def jsOrVal (a b : JValue) : JValue := if jsTruthy a then a else b

/-- An optional string field of the request context, viewed as a JS value
(`undefined` when absent). -/
def optStrVal : Option String → JValue
  | some s => .str s
  | none => (.undef : JValue)

/-- JS string-to-number coercion, restricted to the integer-literal strings
the development manipulates; `none` stands for NaN. -/
def strToNumberJs (s : String) : Option Int :=
  let t := s.trim
  if t == "" then some 0 else t.toInt?

/-- JS `ToNumber`; `none` stands for NaN.  Arrays and objects are modelled
as NaN (their `toPrimitive` detour is never exercised by the claims). -/
def jsToNumber : JValue → Option Int
  | .undef => none
  | .null => some 0
  | .bool b => some (if b then 1 else 0)
  | .num n => some n
  | .str s => strToNumberJs s
  | .arr _ => none
  | .obj _ => none

/-- JS `a < b`: string–string comparisons are lexicographic, everything
else is compared numerically, and any NaN operand yields false. -/
def jsLt : JValue → JValue → Bool
  | .str a, .str b => decide (a < b)
  | a, b =>
      match jsToNumber a, jsToNumber b with
      | some x, some y => decide (x < y)
      | _, _ => false

/-- JS `a > b`. -/
def jsGt (a b : JValue) : Bool := jsLt b a

/-- JS `a <= b`. -/
def jsLe : JValue → JValue → Bool
  | .str a, .str b => decide (a ≤ b)
  | a, b =>
      match jsToNumber a, jsToNumber b with
      | some x, some y => decide (x ≤ y)
      | _, _ => false

/-- JS `a >= b`. -/
def jsGe (a b : JValue) : Bool := jsLe b a

/-- JS strict equality `===` on the values reaching the evaluators.
Distinct array/object literals are modelled as unequal (reference
semantics for fresh literals). -/
def jsStrictEq : JValue → JValue → Bool
  | .undef, .undef => true
  | .null, .null => true
  | .bool a, .bool b => a == b
  | .num a, .num b => a == b
  | .str a, .str b => a == b
  | _, _ => false

mutual

/-- JS `String(v)`. -/
def jsToString : JValue → String
  | .undef => "undefined"
  | .null => "null"
  | .bool b => if b then "true" else "false"
  | .num n => toString n
  | .str s => s
  | .arr xs => jsToStringList xs
  | .obj _ => "[object Object]"

/-- Array `toString`: elements joined with commas, null/undefined empty. -/
def jsToStringList : List JValue → String
  | [] => ""
  | [v] => jsToStringElem v
  | v :: rest => jsToStringElem v ++ "," ++ jsToStringList rest

/-- One array element inside a join. -/
def jsToStringElem : JValue → String
  | .undef => ""
  | .null => ""
  | v => jsToString v

end

/-- Whether the character list `p` is a prefix of `s`. -/
def charsPrefix : List Char → List Char → Bool
  | [], _ => true
  | _ :: _, [] => false
  | a :: as, b :: bs => a == b && charsPrefix as bs

/-- Whether the character list `p` occurs inside `s`. -/
def charsContains (p : List Char) : List Char → Bool
  | [] => charsPrefix p []
  | s@(_ :: rest) => charsPrefix p s || charsContains p rest

/-- Simplified model of `new RegExp(pattern).test(s)`, used only where the
surrounding claims treat condition evaluation as one opaque boolean: for a
metacharacter-free pattern `test` is exactly a substring search.  The
faithful model of the constructor and of `test` — including the
`SyntaxError` thrown on an invalid pattern — is `jsRegExpTest` in the C6
section below. -/
def regexTest (pattern s : String) : Bool :=
  charsContains pattern.toList s.toList

/-- Wrap-around to a 32-bit signed integer, as applied by the JS bitwise
operators (`<< 5` and `h & h` in the rollout hash). -/
def toInt32 (n : Int) : Int := (n + 2147483648) % 4294967296 - 2147483648

mutual

/-- Embeds `RuleComposer.deepMerge(target, source)` from
src/src/index.ts (the RuleComposer part).  The JS body is

  const result = \x7b ...target \x7d;
  for (const key in source)
    if (source[key] instanceof Object && key in target && !Array.isArray(source[key]))
      result[key] = this.deepMerge(target[key], source[key]);
    else result[key] = source[key];
  return result;

The `for..in` enumeration of the source is split by the source's shape:
object fields, array index properties, string index properties, nothing for
other primitives.  The `in` operator throws a `TypeError` when `target` is
a primitive and the guard reaches it; that surfaces as `.error`. -/
def deepMerge (target source : JValue) : Except String JValue :=
  match source with
  | .obj fs => Except.map JValue.obj (mergeFields target (jsSpread target) fs)
  | .arr xs => Except.map JValue.obj (mergeArrFields target (jsSpread target) 0 xs)
  | .str s => Except.ok (.obj (setAll (jsSpread target) (strCharFieldsFrom 0 s.toList)))
  | _ => Except.ok (.obj (jsSpread target))
termination_by structural source

/-- The body of the `for..in` loop of `deepMerge` over object fields. -/
def mergeFields (target : JValue) (acc : List (String × JValue)) :
    List (String × JValue) → Except String (List (String × JValue))
  | [] => .ok acc
  | (k, v) :: rest =>
      if isObjectInstance v then
        match keyInJs k target with
        | .error e => .error e
        | .ok inT =>
            if inT && !(isArr v) then
              match deepMerge (getProp target k) v with
              | .error e => .error e
              | .ok m => mergeFields target (setKey acc k m) rest
            else mergeFields target (setKey acc k v) rest
      else mergeFields target (setKey acc k v) rest
termination_by structural fs => fs

/-- The body of the `for..in` loop of `deepMerge` over the index
properties of an array source. -/
def mergeArrFields (target : JValue) (acc : List (String × JValue)) (i : Nat) :
    List JValue → Except String (List (String × JValue))
  | [] => .ok acc
  | v :: rest =>
      let k := toString i
      if isObjectInstance v then
        match keyInJs k target with
        | .error e => .error e
        | .ok inT =>
            if inT && !(isArr v) then
              match deepMerge (getProp target k) v with
              | .error e => .error e
              | .ok m => mergeArrFields target (setKey acc k m) (i + 1) rest
            else mergeArrFields target (setKey acc k v) (i + 1) rest
      else mergeArrFields target (setKey acc k v) (i + 1) rest
termination_by structural xs => xs

end

/-! ## Data model (src/src/types, embedded from src/src/index.ts lines 494-631) -/

/-- A primitive rule condition.  `type` and `operator` are open strings at
runtime (they arrive from JSON), so they are modelled as `String`; the
evaluator's `default` branches handle unknown values. -/
structure RuleCondition where
  type : String
  operator : String
  value : JValue
deriving Repr

mutual

/-- A rule chain: an operator (`"AND" | "OR" | "NOT" | "XOR"`, open string
at runtime) over rule ids and nested chains. -/
inductive RuleChain where
  | mk (operator : String) (rules : List ChainItem)

/-- One item of a chain's `rules` array: a rule id or a nested chain. -/
inductive ChainItem where
  | rid (id : String)
  | nested (c : RuleChain)

end

/-- The operator of a chain. -/
def RuleChain.operator : RuleChain → String
  | .mk op _ => op

/-- The items of a chain. -/
def RuleChain.rules : RuleChain → List ChainItem
  | .mk _ rs => rs

mutual

/-- A rule's `composition` descriptor.  `overrides` is a partial rule,
which may itself carry a composition, hence the mutual definition. -/
inductive RuleComposition where
  | mk (type : String) (baseRuleId : Option String)
      (sourceRuleIds : Option (List String)) (overrides : Option PartialRule)

/-- `Partial<ConfigRule>`: every rule attribute, each possibly absent. -/
inductive PartialRule where
  | mk (id : Option String) (name : Option String) (description : Option String)
      (priority : Option Int) (conditions : Option (List RuleCondition))
      (config : Option JValue) (resolutionStrategy : Option String)
      (enabled : Option Bool) (dependencies : Option (List String))
      (exclusions : Option (List String)) (chain : Option RuleChain)
      (executeAfter : Option (List String)) (executeBefore : Option (List String))
      (stopPropagation : Option Bool) (composition : Option RuleComposition)
      (tags : Option (List String)) (metadata : Option JValue)

end

def RuleComposition.type : RuleComposition → String
  | .mk t _ _ _ => t

def RuleComposition.baseRuleId : RuleComposition → Option String
  | .mk _ b _ _ => b

def RuleComposition.sourceRuleIds : RuleComposition → Option (List String)
  | .mk _ _ s _ => s

def RuleComposition.overrides : RuleComposition → Option PartialRule
  | .mk _ _ _ o => o

def PartialRule.id : PartialRule → Option String
  | .mk v _ _ _ _ _ _ _ _ _ _ _ _ _ _ _ _ => v

def PartialRule.name : PartialRule → Option String
  | .mk _ v _ _ _ _ _ _ _ _ _ _ _ _ _ _ _ => v

def PartialRule.description : PartialRule → Option String
  | .mk _ _ v _ _ _ _ _ _ _ _ _ _ _ _ _ _ => v

def PartialRule.priority : PartialRule → Option Int
  | .mk _ _ _ v _ _ _ _ _ _ _ _ _ _ _ _ _ => v

def PartialRule.conditions : PartialRule → Option (List RuleCondition)
  | .mk _ _ _ _ v _ _ _ _ _ _ _ _ _ _ _ _ => v

def PartialRule.config : PartialRule → Option JValue
  | .mk _ _ _ _ _ v _ _ _ _ _ _ _ _ _ _ _ => v

def PartialRule.resolutionStrategy : PartialRule → Option String
  | .mk _ _ _ _ _ _ v _ _ _ _ _ _ _ _ _ _ => v

def PartialRule.enabled : PartialRule → Option Bool
  | .mk _ _ _ _ _ _ _ v _ _ _ _ _ _ _ _ _ => v

def PartialRule.dependencies : PartialRule → Option (List String)
  | .mk _ _ _ _ _ _ _ _ v _ _ _ _ _ _ _ _ => v

def PartialRule.exclusions : PartialRule → Option (List String)
  | .mk _ _ _ _ _ _ _ _ _ v _ _ _ _ _ _ _ => v

def PartialRule.chain : PartialRule → Option RuleChain
  | .mk _ _ _ _ _ _ _ _ _ _ v _ _ _ _ _ _ => v

def PartialRule.executeAfter : PartialRule → Option (List String)
  | .mk _ _ _ _ _ _ _ _ _ _ _ v _ _ _ _ _ => v

def PartialRule.executeBefore : PartialRule → Option (List String)
  | .mk _ _ _ _ _ _ _ _ _ _ _ _ v _ _ _ _ => v

def PartialRule.stopPropagation : PartialRule → Option Bool
  | .mk _ _ _ _ _ _ _ _ _ _ _ _ _ v _ _ _ => v

def PartialRule.composition : PartialRule → Option RuleComposition
  | .mk _ _ _ _ _ _ _ _ _ _ _ _ _ _ v _ _ => v

def PartialRule.tags : PartialRule → Option (List String)
  | .mk _ _ _ _ _ _ _ _ _ _ _ _ _ _ _ v _ => v

def PartialRule.metadata : PartialRule → Option JValue
  | .mk _ _ _ _ _ _ _ _ _ _ _ _ _ _ _ _ v => v

/-- A configuration rule.  Optional boolean flags that the engine only
tests for truthiness (`enabled` is required, `stopPropagation` optional)
are modelled as `Bool`, with absence as `false`; `metadata` absence is
modelled as `JValue.undef`. -/
structure ConfigRule where
  id : String
  name : String
  description : Option String
  priority : Int
  conditions : List RuleCondition
  config : JValue
  resolutionStrategy : String
  enabled : Bool
  dependencies : Option (List String)
  exclusions : Option (List String)
  chain : Option RuleChain
  executeAfter : Option (List String)
  executeBefore : Option (List String)
  stopPropagation : Bool
  composition : Option RuleComposition
  tags : Option (List String)
  metadata : JValue

/-- The parsed user agent's OS record. -/
structure ParsedOS where
  name : Option String

/-- The parsed user agent's device record. -/
structure ParsedDevice where
  type : Option String

/-- The structured user-agent parse result consumed by the engine. -/
structure ParsedUA where
  os : ParsedOS
  device : ParsedDevice

/-- Client-provided geolocation override. -/
structure ClientGeo where
  country : Option String
  region : Option String

/-- The per-request evaluation context.  `timestamp` is milliseconds since
the epoch (`Date.getTime()`). -/
structure RequestContext where
  userAgent : String
  parsedUA : ParsedUA
  appVersion : String
  os : Option String
  device : Option String
  geoCountry : Option String
  geoRegion : Option String
  clientProvidedGeo : Option ClientGeo
  timestamp : Int
  environment : Option String
  featureFlags : Option (List (String × Bool))
  userId : Option String
  customContext : Option (List (String × JValue))

/-- A load condition gating a conditional rule.  The `value` payloads carry
the shapes the loader destructures; the `unknownType` constructor stands
for any other runtime `type` string (the switch's default branch). -/
inductive LoadCondition where
  | environment (value : String)
  | feature_flag (flagName : String) (expectedValue : Bool)
  | percentage_rollout (percentage : Int) (ruleId : String)
  | custom (key : String) (operator : String) (value : JValue)
  | unknownType (t : String)

/-- A conditional-rule gating link. -/
structure ConditionalRule where
  ruleId : String
  loadConditions : List LoadCondition
  lazyLoad : Option Bool

/-- A configuration schema. -/
structure ConfigSchema where
  version : String
  requiredKeys : List String
  optionalKeys : List String
  deprecatedKeys : List String

/-- A configuration specification, the persistent unit keyed by
`(appId, version)`. -/
structure ConfigSpecification where
  id : String
  appId : String
  version : String
  schema : ConfigSchema
  defaultConfig : JValue
  rules : List ConfigRule
  conditionalRules : Option (List ConditionalRule)
  ruleTemplates : Option (List (String × PartialRule))
  environment : Option String
  featureFlags : Option (List (String × Bool))
  rolloutPercentages : Option (List (String × Int))
  createdAt : String
  updatedAt : String

/-- The result record returned by `RuleEngine.evaluateRule`. -/
structure RuleEvaluationResult where
  matched : Bool
  rule : ConfigRule
  reason : String

/-! ## Rule engine (src/src/services/ruleEngine.ts) -/

/-- The context-value extraction switch at the top of
`RuleEngine.evaluateCondition` (ruleEngine.ts lines 29-56).  `none` marks
the `default` branch, where the source returns `false` immediately. -/
def extractContextValue (t : String) (ctx : RequestContext) : Option JValue :=
  match t with
  | "app_version" => some (.str ctx.appVersion)
  | "os" => some (jsOrVal (optStrVal ctx.os) (optStrVal ctx.parsedUA.os.name))
  | "device" => some (jsOrVal (optStrVal ctx.device) (optStrVal ctx.parsedUA.device.type))
  | "geo_country" =>
      some (jsOrVal (optStrVal (ctx.clientProvidedGeo.bind (·.country)))
        (optStrVal ctx.geoCountry))
  | "geo_region" =>
      some (jsOrVal (optStrVal (ctx.clientProvidedGeo.bind (·.region)))
        (optStrVal ctx.geoRegion))
  | "time_after" => some (.num ctx.timestamp)
  | "time_before" => some (.num ctx.timestamp)
  | "user_agent_match" => some (.str ctx.userAgent)
  | _ => none

/-- Embeds `RuleEngine.evaluateCondition` (ruleEngine.ts lines 21-79):
extract the context value by condition type, then dispatch on the
operator; both switches degrade to `false` on unknown tags. -/
def evaluateCondition (condition : RuleCondition) (ctx : RequestContext) : Bool :=
  match extractContextValue condition.type ctx with
  | none => false
  | some contextValue =>
      match condition.operator with
      | "eq" => jsStrictEq contextValue condition.value
      | "ne" => !(jsStrictEq contextValue condition.value)
      | "gt" => jsGt contextValue condition.value
      | "lt" => jsLt contextValue condition.value
      | "gte" => jsGe contextValue condition.value
      | "lte" => jsLe contextValue condition.value
      | "in" =>
          match condition.value with
          | .arr xs => xs.any (fun v => jsStrictEq v contextValue)
          | _ => false
      | "regex" => regexTest (jsToString condition.value) (jsToString contextValue)
      | _ => false

/-- The engine's rule registry built by `registerRules`: a JS `Map` filled
with `rules.forEach(r => set(r.id, r))`, so a lookup returns the last rule
carrying the id. -/
def regFind (rules : List ConfigRule) (id : String) : Option ConfigRule :=
  rules.reverse.find? (fun r => r.id == id)

/-- The engine's per-run memo cache.  The source key is
`rule.id + ":" + JSON.stringify(context)`; within one engine run the
context is a fixed object, so the key is modelled by the rule id alone. -/
def EvalCache := List (String × Bool)

/-- Embeds `RuleEngine.evaluateRuleBasic` (ruleEngine.ts lines 110-128):
disabled rules are false without touching the cache; otherwise the memoised
conjunction of the rule's primitive conditions is returned. -/
def evaluateRuleBasic (cache : EvalCache) (rule : ConfigRule)
    (ctx : RequestContext) : Bool × EvalCache :=
  if !rule.enabled then (false, cache)
  else
    match lookupKey cache rule.id with
    | some b => (b, cache)
    | none =>
        let result := rule.conditions.all (fun c => evaluateCondition c ctx)
        (result, setKey cache rule.id result)

/-- The combination step at the bottom of `evaluateRuleChain`
(ruleEngine.ts lines 96-107).  `!results[0]` on an empty array is
`!undefined`, i.e. `true`, which `!(rs.headD false)` reproduces. -/
def applyChainOp (op : String) (results : List Bool) : Bool :=
  match op with
  | "AND" => results.all (fun r => r)
  | "OR" => results.any (fun r => r)
  | "NOT" => !(results.headD false)
  | "XOR" => (results.filter (fun r => r)).length == 1
  | _ => false

mutual

/-- Embeds `RuleEngine.evaluateRuleChain` (ruleEngine.ts lines 81-108),
threading the memo cache through the item evaluations in order. -/
def evaluateRuleChain (reg : List ConfigRule) (cache : EvalCache)
    (chain : RuleChain) (ctx : RequestContext) : Bool × EvalCache :=
  match chain with
  | .mk op rules =>
      let (results, cache') := evalChainItems reg cache rules ctx
      (applyChainOp op results, cache')

/-- The `rules.map(item => ...)` of `evaluateRuleChain`, sequentially. -/
def evalChainItems (reg : List ConfigRule) (cache : EvalCache)
    (items : List ChainItem) (ctx : RequestContext) : List Bool × EvalCache :=
  match items with
  | [] => ([], cache)
  | item :: rest =>
      let (b, cache1) := evalChainItem reg cache item ctx
      let (bs, cache2) := evalChainItems reg cache1 rest ctx
      (b :: bs, cache2)

/-- One chain item: a string id is looked up in the registry (unknown ids
are false) and produces the rule's basic evaluation; a nested chain
recurses. -/
def evalChainItem (reg : List ConfigRule) (cache : EvalCache)
    (item : ChainItem) (ctx : RequestContext) : Bool × EvalCache :=
  match item with
  | .rid id =>
      match regFind reg id with
      | none => (false, cache)
      | some rule => evaluateRuleBasic cache rule ctx
  | .nested c => evaluateRuleChain reg cache c ctx

end

/-- Embeds `RuleEngine.evaluateRule` (ruleEngine.ts lines 130-171): the
short-circuit cascade disabled → exclusions → dependencies → chain →
basic conditions. -/
def evaluateRule (reg : List ConfigRule) (cache : EvalCache) (rule : ConfigRule)
    (ctx : RequestContext) (matchedRuleIds : List String) :
    RuleEvaluationResult × EvalCache :=
  if !rule.enabled then
    ({ matched := false, rule := rule, reason := "Rule disabled" }, cache)
  else if (match rule.exclusions with
           | some ex => ex.any (fun id => matchedRuleIds.contains id)
           | none => false) then
    ({ matched := false, rule := rule, reason := "Excluded by another rule" }, cache)
  else if (match rule.dependencies with
           | some ds => !(ds.all (fun id => matchedRuleIds.contains id))
           | none => false) then
    ({ matched := false, rule := rule, reason := "Missing dependencies" }, cache)
  else
    match rule.chain with
    | some ch =>
        let (chainResult, cache') := evaluateRuleChain reg cache ch ctx
        if !chainResult then
          ({ matched := false, rule := rule, reason := "Chain evaluation failed" }, cache')
        else
          let (basicMatch, cache'') := evaluateRuleBasic cache' rule ctx
          ({ matched := basicMatch, rule := rule,
             reason := if basicMatch then "All conditions met" else "Conditions not met" },
           cache'')
    | none =>
        let (basicMatch, cache') := evaluateRuleBasic cache rule ctx
        ({ matched := basicMatch, rule := rule,
           reason := if basicMatch then "All conditions met" else "Conditions not met" },
         cache')

/-! ### Topological sort (ruleEngine.ts lines 205-278)

Rule objects are identified with their positions in the input list, which
models JS object identity (`sorted.includes(rule)` and `rules.find` compare
references).  The dependency graph and in-degree maps are keyed by rule id,
exactly as in the source. -/

/-- The rule id stored at an index of the input list. -/
def ridAt (rules : List ConfigRule) (i : Nat) : String :=
  match rules[i]? with
  | some r => r.id
  | none => ""

/-- The priority stored at an index of the input list. -/
def prioAt (rules : List ConfigRule) (i : Nat) : Int :=
  match rules[i]? with
  | some r => r.priority
  | none => 0

/-- Set insertion used for the successor sets (`Set.add`): append unless
present. -/
def setAddStr (l : List String) (x : String) : List String :=
  if l.contains x then l else l ++ [x]

/-- Builds the successor map and in-degree map of
`sortRulesByExecutionOrder`: `executeAfter` adds an edge dependency → rule
and bumps the rule's own in-degree; `executeBefore` adds an edge rule →
other and bumps the other's in-degree.  Every `forEach` step is kept,
including entries naming ids that are not in the rule list. -/
def buildOrderMaps (rules : List ConfigRule) :
    List (String × List String) × List (String × Int) :=
  rules.foldl
    (fun gd rule =>
      let g0 := if hasKey gd.1 rule.id then gd.1 else setKey gd.1 rule.id []
      let d0 := if hasKey gd.2 rule.id then gd.2 else setKey gd.2 rule.id 0
      let gd1 := (rule.executeAfter.getD []).foldl
        (fun gd depId =>
          let g := if hasKey gd.1 depId then gd.1 else setKey gd.1 depId []
          let g := setKey g depId (setAddStr ((lookupKey g depId).getD []) rule.id)
          let d := setKey gd.2 rule.id (((lookupKey gd.2 rule.id).getD 0) + 1)
          (g, d))
        (g0, d0)
      (rule.executeBefore.getD []).foldl
        (fun gd depId =>
          let g := if hasKey gd.1 rule.id then gd.1 else setKey gd.1 rule.id []
          let g := setKey g rule.id (setAddStr ((lookupKey g rule.id).getD []) depId)
          let d := setKey gd.2 depId (((lookupKey gd.2 depId).getD 0) + 1)
          (g, d))
        gd1)
    ([], [])

/-- Pushing an index into the ready queue and re-sorting by priority
descending.  The JS `queue.push(x); queue.sort((a,b) => b.priority - a.priority)`
with a stable sort on an already-sorted queue places `x` after every entry
of priority ≥ its own and before the strictly lower ones. -/
def insertQ (rules : List ConfigRule) (i : Nat) : List Nat → List Nat
  | [] => [i]
  | j :: rest =>
      if prioAt rules j ≥ prioAt rules i then j :: insertQ rules i rest
      else i :: j :: rest

/-- The first rule object carrying an id (`rules.find(r => r.id === depId)`),
as an index. -/
def idxFind (rules : List ConfigRule) (id : String) : Option Nat :=
  match rules with
  | [] => none
  | r :: rest => if r.id == id then some 0 else (idxFind rest id).map (· + 1)

/-- Processing the dependents of a popped rule: decrement each successor's
in-degree and push the first rule with that id when the degree reaches
exactly zero. -/
def processDependents (rules : List ConfigRule) (deps : List String)
    (queue : List Nat) (deg : List (String × Int)) :
    List Nat × List (String × Int) :=
  deps.foldl
    (fun qd depId =>
      let newDegree := ((lookupKey qd.2 depId).getD 0) - 1
      let d := setKey qd.2 depId newDegree
      if newDegree == 0 then
        match idxFind rules depId with
        | some j => (insertQ rules j qd.1, d)
        | none => (qd.1, d)
      else (qd.1, d))
    (queue, deg)

/-- The Kahn loop of `sortRulesByExecutionOrder`.  The fuel argument is a
standard shallow embedding of the `while (queue.length > 0)` loop; every
index enters the queue at most once (proved below), so any fuel of at
least `rules.length + 1` runs the loop to completion. -/
def kahnLoop (rules : List ConfigRule) (graph : List (String × List String)) :
    Nat → List Nat → List (String × Int) → List Nat → List Nat
  | 0, _, _, sorted => sorted
  | _ + 1, [], _, sorted => sorted
  | fuel + 1, i :: queue, deg, sorted =>
      let deps := (lookupKey graph (ridAt rules i)).getD []
      let (queue', deg') := processDependents rules deps queue deg
      kahnLoop rules graph fuel queue' deg' (sorted ++ [i])

/-- Embeds `RuleEngine.sortRulesByExecutionOrder` (ruleEngine.ts lines
205-278): build the graph, run Kahn's algorithm on a priority-descending
ready queue, and append the rules left unsorted (cycles, unsatisfiable
constraints) in input order. -/
def sortRulesByExecutionOrder (rules : List ConfigRule) : List ConfigRule :=
  let gd := buildOrderMaps rules
  let startIdxs := (List.range rules.length).filter
    (fun i => ((lookupKey gd.2 (ridAt rules i)).getD 0) == 0)
  let queue := startIdxs.foldl (fun q i => insertQ rules i q) []
  let order := kahnLoop rules gd.1 (rules.length + 1) queue gd.2 []
  let final := order ++ (List.range rules.length).filter (fun i => !(order.contains i))
  final.filterMap (fun i => rules[i]?)

/-- The `for (const rule of sortedRules)` loop of
`RuleEngine.evaluateAllRules` (ruleEngine.ts lines 187-200), threading the
matched-id set, the result list, the matched list and the memo cache, and
breaking after a matching rule with `stopPropagation`. -/
def evalRulesLoop (reg : List ConfigRule) (ctx : RequestContext) :
    List ConfigRule → List String → List RuleEvaluationResult →
    List ConfigRule → EvalCache →
    List ConfigRule × List RuleEvaluationResult
  | [], _, results, matchedRules, _ => (matchedRules, results)
  | rule :: rest, mids, results, matchedRules, cache =>
      let (result, cache') := evaluateRule reg cache rule ctx mids
      let results' := results ++ [result]
      if result.matched then
        let mids' := mids ++ [rule.id]
        let matched' := matchedRules ++ [rule]
        if rule.stopPropagation then (matched', results')
        else evalRulesLoop reg ctx rest mids' results' matched' cache'
      else evalRulesLoop reg ctx rest mids results' matchedRules cache'

/-- Embeds `RuleEngine.evaluateAllRules` (ruleEngine.ts lines 173-203):
register the rules, clear the cache, sort, then evaluate in order. -/
def evaluateAllRules (rules : List ConfigRule) (ctx : RequestContext) :
    List ConfigRule × List RuleEvaluationResult :=
  let sortedRules := sortRulesByExecutionOrder rules
  evalRulesLoop rules ctx sortedRules [] [] [] []

/-! ## Rule composer (src/src/index.ts, RuleComposer, lines 632-872) -/

/-- JS `option || dflt` on an optional string, where the empty string is
falsy and falls through to the default. -/
def jsOrString (o : Option String) (dflt : String) : String :=
  match o with
  | some s => if s == "" then dflt else s
  | none => dflt

/-- The spread overlay `\x7b ...rule, ...partial \x7d` producing a full
rule: each attribute present on the partial wins. -/
def overlayPartialOnRule (r : ConfigRule) (p : PartialRule) : ConfigRule :=
  { id := p.id.getD r.id
    name := p.name.getD r.name
    description := p.description <|> r.description
    priority := p.priority.getD r.priority
    conditions := p.conditions.getD r.conditions
    config := p.config.getD r.config
    resolutionStrategy := p.resolutionStrategy.getD r.resolutionStrategy
    enabled := p.enabled.getD r.enabled
    dependencies := p.dependencies <|> r.dependencies
    exclusions := p.exclusions <|> r.exclusions
    chain := p.chain <|> r.chain
    executeAfter := p.executeAfter <|> r.executeAfter
    executeBefore := p.executeBefore <|> r.executeBefore
    stopPropagation := p.stopPropagation.getD r.stopPropagation
    composition := p.composition <|> r.composition
    tags := p.tags <|> r.tags
    metadata := p.metadata.getD r.metadata }

/-- A full rule viewed as a partial (`\x7b ...rule \x7d`): every attribute
present, with the rule's originally-optional attributes staying optional. -/
def partialOfRule (r : ConfigRule) : PartialRule :=
  .mk (some r.id) (some r.name) r.description (some r.priority)
    (some r.conditions) (some r.config) (some r.resolutionStrategy)
    (some r.enabled) r.dependencies r.exclusions r.chain r.executeAfter
    r.executeBefore (some r.stopPropagation) r.composition r.tags
    (match r.metadata with
     | .undef => none
     | m => some m)

/-- The spread overlay `\x7b ...base, ...extra \x7d` of two partials. -/
def overlayPartials (base extra : PartialRule) : PartialRule :=
  .mk (extra.id <|> base.id) (extra.name <|> base.name)
    (extra.description <|> base.description) (extra.priority <|> base.priority)
    (extra.conditions <|> base.conditions) (extra.config <|> base.config)
    (extra.resolutionStrategy <|> base.resolutionStrategy)
    (extra.enabled <|> base.enabled) (extra.dependencies <|> base.dependencies)
    (extra.exclusions <|> base.exclusions) (extra.chain <|> base.chain)
    (extra.executeAfter <|> base.executeAfter)
    (extra.executeBefore <|> base.executeBefore)
    (extra.stopPropagation <|> base.stopPropagation)
    (extra.composition <|> base.composition) (extra.tags <|> base.tags)
    (extra.metadata <|> base.metadata)

/-- Embeds `RuleComposer.mergeConfigs` (index.ts lines 840-855). -/
def mergeConfigs (target source : JValue) (strategy : String) :
    Except String JValue :=
  match strategy with
  | "override" => .ok (.obj (jsSpread source))
  | "merge" => deepMerge target source
  | "inherit" => .ok (.obj (setAll (jsSpread source) (jsSpread target)))
  | _ => .ok target

/-- Embeds `RuleComposer.extendRule` (index.ts lines 646-659):
`\x7b ...base, ...overrides \x7d` with the id defaulting to
`"<base.id>-extended"`, conditions taken wholesale, config deep-merged and
metadata shallow-merged with `extendedFrom` stamped in. -/
def extendRule (baseRule : ConfigRule) (overrides : PartialRule) :
    Except String ConfigRule := do
  let cfg ← deepMerge baseRule.config (overrides.config.getD .undef)
  let r0 := overlayPartialOnRule baseRule overrides
  pure { r0 with
    id := jsOrString overrides.id (baseRule.id ++ "-extended")
    conditions := overrides.conditions.getD baseRule.conditions
    config := cfg
    metadata := .obj (setKey
      (setAll (jsSpread baseRule.metadata) (jsSpread (overrides.metadata.getD .undef)))
      "extendedFrom" (.str baseRule.id)) }

/-- Embeds `RuleComposer.composeRules` (index.ts lines 662-710). -/
def composeRules (sourceRules : List ConfigRule) (newRuleId : String)
    (strategy : String) : Except String ConfigRule :=
  match sourceRules with
  | [] => .error "Cannot compose empty rule set"
  | first :: rest => do
      let src := first :: rest
      let allConditions := (src.map (·.conditions)).flatten
      let mergedConfig ← rest.foldlM
        (fun cfg rule => mergeConfigs cfg rule.config strategy)
        (JValue.obj (jsSpread first.config))
      let allDependencies := src.foldl
        (fun s rule => (rule.dependencies.getD []).foldl setAddStr s) []
      let allExclusions := src.foldl
        (fun s rule => (rule.exclusions.getD []).foldl setAddStr s) []
      let allTags := src.foldl
        (fun s rule => (rule.tags.getD []).foldl setAddStr s) []
      pure
        { id := newRuleId
          name := "Composed: " ++ String.intercalate " + " (src.map (·.name))
          description := some ("Composed from: " ++ String.intercalate ", " (src.map (·.id)))
          priority := rest.foldl (fun m r => max m r.priority) first.priority
          conditions := allConditions
          config := mergedConfig
          resolutionStrategy := strategy
          enabled := src.all (·.enabled)
          dependencies := some allDependencies
          exclusions := some allExclusions
          chain := none
          executeAfter := none
          executeBefore := none
          stopPropagation := false
          composition := none
          tags := some allTags
          metadata := .obj
            [("composedFrom", .arr (src.map (fun r => JValue.str r.id))),
             ("compositionStrategy", .str strategy)] }

/-- The spread `[...(target.metadata?.mixins || [])]`: an array spreads to
its elements, a string to its characters, a falsy value to nothing, and a
truthy non-iterable throws a `TypeError`. -/
def mixinsArray (meta : JValue) : Except String (List JValue) :=
  match getProp meta "mixins" with
  | .arr xs => .ok xs
  | .str s => .ok (s.toList.map (fun c => .str (String.singleton c)))
  | v => if jsTruthy v then .error "TypeError: value is not iterable" else .ok []

/-- Embeds `RuleComposer.applyMixin` (index.ts lines 713-724). -/
def applyMixin (targetRule mixinRule : ConfigRule) : Except String ConfigRule := do
  let cfg ← mergeConfigs targetRule.config mixinRule.config "merge"
  let priorMixins ← mixinsArray targetRule.metadata
  pure { targetRule with
    config := cfg
    conditions := targetRule.conditions ++ mixinRule.conditions
    tags := some ((targetRule.tags.getD []) ++ (mixinRule.tags.getD []) ++ ["mixed"])
    metadata := .obj (setKey (jsSpread targetRule.metadata) "mixins"
      (.arr (priorMixins ++ [.str mixinRule.id]))) }

/-- The `for (const mixinId of sourceRuleIds)` loop of the mixin branch:
apply each resolvable mixin in order, silently skipping unknown ids. -/
def mixinLoop (allRules : List ConfigRule) (acc : ConfigRule) :
    List String → Except String ConfigRule
  | [] => .ok acc
  | mixinId :: rest =>
      match allRules.find? (fun r => r.id == mixinId) with
      | some mixinRule => do
          let acc' ← applyMixin acc mixinRule
          mixinLoop allRules acc' rest
      | none => mixinLoop allRules acc rest

/-- Embeds `RuleComposer.processComposition` (index.ts lines 775-838). -/
def processComposition (rule : ConfigRule) (allRules : List ConfigRule) :
    Except String ConfigRule :=
  match rule.composition with
  | none => .ok rule
  | some comp =>
      match comp.type with
      | "extend" =>
          match comp.baseRuleId with
          | none => .error "baseRuleId required for extend composition"
          | some baseRuleId =>
              match allRules.find? (fun r => r.id == baseRuleId) with
              | none => .error ("Base rule not found: " ++ baseRuleId)
              | some baseRule => do
                  let cfg ← deepMerge (jsOrVal rule.config (.obj []))
                    (jsOrVal ((comp.overrides.bind (·.config)).getD .undef) (.obj []))
                  let combinedOverrides :=
                    overlayPartials (partialOfRule rule) (comp.overrides.getD
                      (.mk none none none none none none none none none none
                        none none none none none none none))
                  let combinedOverrides :=
                    overlayPartials combinedOverrides
                      (.mk (some rule.id) none none none none (some cfg) none
                        none none none none none none none none none none)
                  extendRule baseRule combinedOverrides
      | "compose" =>
          match comp.sourceRuleIds with
          | none => .error "sourceRuleIds required for compose composition"
          | some [] => .error "sourceRuleIds required for compose composition"
          | some sourceRuleIds => do
              let sourceRules := sourceRuleIds.filterMap
                (fun id => allRules.find? (fun r => r.id == id))
              if sourceRules.length != sourceRuleIds.length then
                .error "Some source rules not found"
              else do
                let composed ← composeRules sourceRules rule.id rule.resolutionStrategy
                pure (match comp.overrides with
                  | some ov => overlayPartialOnRule composed ov
                  | none => composed)
      | "mixin" =>
          match comp.sourceRuleIds with
          | none => .error "sourceRuleIds required for mixin composition"
          | some [] => .error "sourceRuleIds required for mixin composition"
          | some sourceRuleIds => mixinLoop allRules rule sourceRuleIds
      | _ => .ok rule

/-! ## Conditional rule loader (src/src/services/conditionalRuleLoader.ts) -/

/-- Embeds the private `hashString` (conditionalRuleLoader.ts lines
123-131): start from 0; for each character code `c`,
`h = (h << 5) - h + c` followed by `h = h & h`, both with 32-bit signed
wrap-around; return `Math.abs` of the result. -/
def hashString (str : String) : Int :=
  let h := str.toList.foldl
    (fun hash c => toInt32 (toInt32 (hash * 32) - hash + Int.ofNat c.toNat)) 0
  (h.natAbs : Int)

/-- Embeds the private `evaluateCustomCondition` (conditionalRuleLoader.ts
lines 133-158); the operator switch mirrors the one in
`RuleEngine.evaluateCondition`. -/
def evaluateCustomCondition (contextValue : JValue) (operator : String)
    (value : JValue) : Bool :=
  match operator with
  | "eq" => jsStrictEq contextValue value
  | "ne" => !(jsStrictEq contextValue value)
  | "gt" => jsGt contextValue value
  | "lt" => jsLt contextValue value
  | "gte" => jsGe contextValue value
  | "lte" => jsLe contextValue value
  | "in" =>
      match value with
      | .arr xs => xs.any (fun v => jsStrictEq v contextValue)
      | _ => false
  | "regex" => regexTest (jsToString value) (jsToString contextValue)
  | _ => false

/-- JS truthiness of an optional string (`!context.userId` is true both
for an absent and for an empty user id). -/
def jsTruthyOptStr : Option String → Bool
  | some s => s != ""
  | none => false

/-- Embeds `ConditionalRuleLoader.evaluateLoadCondition`
(conditionalRuleLoader.ts lines 35-70). -/
def evaluateLoadCondition (condition : LoadCondition) (ctx : RequestContext)
    (spec : ConfigSpecification) : Bool :=
  match condition with
  | .environment v =>
      (match spec.environment with
       | some e => e == v
       | none => false)
  | .feature_flag flagName expectedValue =>
      let flagValue := (ctx.featureFlags.bind (fun m => lookupKey m flagName)) <|>
        (spec.featureFlags.bind (fun m => lookupKey m flagName))
      (match flagValue with
       | some b => b == expectedValue
       | none => false)
  | .percentage_rollout percentage ruleId =>
      if !(jsTruthyOptStr ctx.userId) then false
      else
        let hash := hashString (ruleId ++ ":" ++ ctx.userId.getD "")
        let userPercentage := hash % 100 + 1
        decide (userPercentage ≤ percentage)
  | .custom key operator value =>
      let contextValue := (ctx.customContext.bind (fun m => lookupKey m key)).getD .undef
      evaluateCustomCondition contextValue operator value
  | .unknownType _ => false

/-- Embeds `ConditionalRuleLoader.shouldLoadRule` (lines 72-80). -/
def shouldLoadRule (conditionalRule : ConditionalRule) (ctx : RequestContext)
    (spec : ConfigSpecification) : Bool :=
  conditionalRule.loadConditions.all
    (fun condition => evaluateLoadCondition condition ctx spec)

mutual

/-- A deterministic serialisation of a JS value, standing in for
`JSON.stringify` in the loader's cache key.  String escaping is not
reproduced; only key determinism (equal values give equal strings) is
relied upon. -/
def stringifyJ : JValue → String
  | .undef => "null"
  | .null => "null"
  | .bool b => if b then "true" else "false"
  | .num n => toString n
  | .str s => "\"" ++ s ++ "\""
  | .arr xs => "[" ++ stringifyJList xs ++ "]"
  | .obj fs => "\x7b" ++ stringifyJFields fs ++ "\x7d"

def stringifyJList : List JValue → String
  | [] => ""
  | [v] => stringifyJ v
  | v :: rest => stringifyJ v ++ "," ++ stringifyJList rest

def stringifyJFields : List (String × JValue) → String
  | [] => ""
  | [(k, v)] => "\"" ++ k ++ "\":" ++ stringifyJ v
  | (k, v) :: rest => "\"" ++ k ++ "\":" ++ stringifyJ v ++ "," ++ stringifyJFields rest

end

/-- Embeds the private `generateCacheKey` (conditionalRuleLoader.ts lines
13-33): the md5 hex digest of `JSON.stringify` of the object holding
`userId`, `customContext`, `featureFlags`, `environment`, `specId` and
`specVersion`.  md5 is modelled as the identity on the serialised string
(the claims do not concern hash collisions); `JSON.stringify` omits
properties whose value is `undefined`. -/
def generateCacheKey (ctx : RequestContext) (spec : ConfigSpecification) : String :=
  stringifyJ (.obj
    ((match ctx.userId with
      | some u => [("userId", JValue.str u)]
      | none => []) ++
     (match ctx.customContext with
      | some m => [("customContext", JValue.obj m)]
      | none => []) ++
     (match ctx.featureFlags with
      | some m => [("featureFlags", JValue.obj (m.map (fun kv => (kv.1, JValue.bool kv.2))))]
      | none => []) ++
     (match ctx.environment with
      | some e => [("environment", JValue.str e)]
      | none => []) ++
     [("specId", JValue.str spec.id), ("specVersion", JValue.str spec.version)]))

/-- The loader's cross-request cache: cache key → loaded-rule map (a JS
`Map` in insertion order). -/
def LoaderCache := List (String × List (String × ConfigRule))

/-- The `for (const conditionalRule of spec.conditionalRules)` loop of
`loadConditionalRules`: rules whose conditions hold and whose id resolves
are stored, forced-enabled, in the loaded-rule map. -/
def buildLoadedMap (crs : List ConditionalRule) (ctx : RequestContext)
    (spec : ConfigSpecification) (allRules : List ConfigRule) :
    List (String × ConfigRule) :=
  crs.foldl
    (fun m conditionalRule =>
      if shouldLoadRule conditionalRule ctx spec then
        match allRules.find? (fun r => r.id == conditionalRule.ruleId) with
        | some rule => setKey m conditionalRule.ruleId { rule with enabled := true }
        | none => m
      else m)
    []

/-- Embeds `ConditionalRuleLoader.loadConditionalRules`
(conditionalRuleLoader.ts lines 82-117), returning the loaded rules and
the updated cache.  An absent or empty `conditionalRules` list returns
early without consulting or updating the cache. -/
def loadConditionalRules (cacheState : LoaderCache) (spec : ConfigSpecification)
    (ctx : RequestContext) (allRules : List ConfigRule) :
    List ConfigRule × LoaderCache :=
  match spec.conditionalRules with
  | none => ([], cacheState)
  | some [] => ([], cacheState)
  | some crs =>
      let cacheKey := generateCacheKey ctx spec
      match lookupKey cacheState cacheKey with
      | some cachedRules => (cachedRules.map (·.2), cacheState)
      | none =>
          let loadedRulesMap := buildLoadedMap crs ctx spec allRules
          (loadedRulesMap.map (·.2), setKey cacheState cacheKey loadedRulesMap)

/-! ## Configuration store and DELETE endpoint
(src/unnamed/part_002, ConfigurationManager; src/src/index.ts lines 444-471) -/

/-- The in-memory specification store: a map keyed by
`appId + ":" + version`. -/
structure ConfigStore where
  specifications : List (String × ConfigSpecification)

/-- Embeds `ConfigurationManager.getSpecification`. -/
def getSpecification (store : ConfigStore) (appId version : String) :
    Option ConfigSpecification :=
  lookupKey store.specifications (appId ++ ":" ++ version)

/-- The response of the DELETE endpoint. -/
inductive DeleteResponse where
  | notFound
  | deleted (appId version : String)
deriving Repr, DecidableEq

/-- Embeds the handler of `DELETE /config/:appId/:version` (index.ts lines
444-471): look the specification up, answer 404 when absent, and otherwise
answer "Configuration deleted successfully" — without invoking any removal
on the configuration manager, which indeed has no delete operation; the
store is returned unchanged on every path. -/
def deleteConfigHandler (store : ConfigStore) (appId version : String) :
    DeleteResponse × ConfigStore :=
  match getSpecification store appId version with
  | none => (.notFound, store)
  | some _ => (.deleted appId version, store)

/-! ## Concrete fixtures used by witnesses and counterexamples -/

/-- A parsed user agent with unknown OS and device. -/
def uaUnknown : ParsedUA := ⟨⟨none⟩, ⟨none⟩⟩

/-- A minimal request context; individual fixtures override fields. -/
def baseCtx : RequestContext :=
  { userAgent := "TestAgent/1.0"
    parsedUA := uaUnknown
    appVersion := "1.0.0"
    os := none
    device := none
    geoCountry := none
    geoRegion := none
    clientProvidedGeo := none
    timestamp := 0
    environment := none
    featureFlags := none
    userId := none
    customContext := none }

/-- A minimal schema. -/
def schemaW : ConfigSchema := ⟨"1.0.0", [], [], []⟩

/-- A minimal stored specification. -/
def specW : ConfigSpecification :=
  { id := "spec-001"
    appId := "app"
    version := "1.0.0"
    schema := schemaW
    defaultConfig := .obj []
    rules := []
    conditionalRules := none
    ruleTemplates := none
    environment := none
    featureFlags := none
    rolloutPercentages := none
    createdAt := ""
    updatedAt := "" }

/-- A store holding `specW` under `app:1.0.0`. -/
def storeW : ConfigStore := ⟨[("app:1.0.0", specW)]⟩

/-! ## C5 — the DELETE endpoint does not remove the stored specification -/

/-- C5 (code bug): the claim says a successful
`DELETE /config/app/1.0.0` removes the `(appId, version)` entry, so a
subsequent get finds nothing.  The handler answers
"Configuration deleted successfully" but never removes anything — the
`ConfigurationManager` has no delete operation and the handler's own
comment admits it only acknowledges the request — so the same get still
returns the specification afterwards. -/
theorem c5_delete_does_not_remove :
    (deleteConfigHandler storeW "app" "1.0.0").1 = .deleted "app" "1.0.0" ∧
    getSpecification (deleteConfigHandler storeW "app" "1.0.0").2 "app" "1.0.0" =
      some specW ∧
    (deleteConfigHandler storeW "app" "1.0.0").2 = storeW := by
  refine ⟨rfl, rfl, rfl⟩

/-! ## C1 — percentage rollout determinism -/

/-- A context with an empty (present but falsy) user id. -/
def ctxEmptyUser : RequestContext := { baseCtx with userId := some "" }

/-- A context with user id `user055`. -/
def ctxUser055 : RequestContext := { baseCtx with userId := some "user055" }

/-- A second context agreeing with `ctxUser055` only on the user id. -/
def ctxUser055' : RequestContext :=
  { baseCtx with
      userId := some "user055"
      userAgent := "Other/2.0"
      appVersion := "9.9.9"
      os := some "iOS"
      timestamp := 123456789 }

/-- C1 (counterexample): the claim states that whenever `context.userId`
is not absent the rollout condition holds iff the bucket is at most the
percentage.  For the present-but-empty user id `""` the bucket test would
succeed at percentage 100, yet the source's falsy guard
`if (!context.userId) return false` rejects it. -/
theorem c1_counterexample_empty_userid :
    ctxEmptyUser.userId = some "" ∧
    (hashString ("beta" ++ ":" ++ "") % 100 + 1 ≤ (100 : Int)) ∧
    evaluateLoadCondition (.percentage_rollout 100 "beta") ctxEmptyUser specW = false := by
  refine ⟨rfl, by decide, rfl⟩

/-- C1 (amended): percentage-rollout membership is a deterministic
function of `(ruleId, userId)`: when `context.userId` is absent or empty
the condition is false; otherwise the bucket equals
`hash(ruleId ++ ":" ++ userId) % 100 + 1` — `hashString` being the source's
fold `h = (h << 5) - h + c` with 32-bit signed wrap-around followed by the
absolute value — and the condition holds iff the bucket is at most the
percentage; the outcome depends on the context and specification only
through `userId`. -/
theorem c1_rollout_deterministic (percentage : Int) (ruleId : String)
    (ctx : RequestContext) (spec : ConfigSpecification) :
    (ctx.userId = none →
      evaluateLoadCondition (.percentage_rollout percentage ruleId) ctx spec = false) ∧
    (ctx.userId = some "" →
      evaluateLoadCondition (.percentage_rollout percentage ruleId) ctx spec = false) ∧
    (∀ u, ctx.userId = some u → u ≠ "" →
      evaluateLoadCondition (.percentage_rollout percentage ruleId) ctx spec =
        decide (hashString (ruleId ++ ":" ++ u) % 100 + 1 ≤ percentage)) ∧
    (∀ ctx' spec', ctx'.userId = ctx.userId →
      evaluateLoadCondition (.percentage_rollout percentage ruleId) ctx' spec' =
      evaluateLoadCondition (.percentage_rollout percentage ruleId) ctx spec) := by
  refine ⟨?_, ?_, ?_, ?_⟩
  · intro h
    simp [evaluateLoadCondition, jsTruthyOptStr, h]
  · intro h
    simp [evaluateLoadCondition, jsTruthyOptStr, h]
  · intro u hu hne
    simp [evaluateLoadCondition, jsTruthyOptStr, hu, hne]
  · intro ctx' spec' h
    cases hc : ctx.userId with
    | none => simp [evaluateLoadCondition, jsTruthyOptStr, h, hc]
    | some u =>
        by_cases hu : u = ""
        · simp [evaluateLoadCondition, jsTruthyOptStr, h, hc, hu]
        · simp [evaluateLoadCondition, jsTruthyOptStr, h, hc, hu]

/-- C1 witness: the amended theorem applied at concrete inputs — an absent
user id, an empty user id, the `user055` rollout bucket of scenario S3,
and two contexts differing everywhere but on the user id. -/
theorem c1_rollout_deterministic_witness :
    evaluateLoadCondition (.percentage_rollout 25 "beta") baseCtx specW = false ∧
    evaluateLoadCondition (.percentage_rollout 25 "beta") ctxEmptyUser specW = false ∧
    evaluateLoadCondition (.percentage_rollout 25 "beta") ctxUser055 specW =
      decide (hashString ("beta" ++ ":" ++ "user055") % 100 + 1 ≤ (25 : Int)) ∧
    evaluateLoadCondition (.percentage_rollout 25 "beta") ctxUser055' specW =
    evaluateLoadCondition (.percentage_rollout 25 "beta") ctxUser055 specW := by
  refine ⟨(c1_rollout_deterministic 25 "beta" baseCtx specW).1 rfl,
    (c1_rollout_deterministic 25 "beta" ctxEmptyUser specW).2.1 rfl,
    (c1_rollout_deterministic 25 "beta" ctxUser055 specW).2.2.1 "user055" rfl (by decide),
    (c1_rollout_deterministic 25 "beta" ctxUser055 specW).2.2.2 ctxUser055' specW rfl⟩

/-! ## C6 — condition evaluation and the regex compile exception

The claim asserts that condition evaluation is total and never throws.  The
`regex` arm of `RuleEngine.evaluateCondition` (ruleEngine.ts line 75) is

  return new RegExp(value).test(String(contextValue));

with no try/catch anywhere in the evaluation pipeline, so a pattern the
`RegExp` constructor rejects escapes as a thrown `SyntaxError`.  The
definitions below model the constructor faithfully on a substantial
fragment of the ECMAScript pattern grammar — in particular its compile
errors — and re-embed `evaluateCondition` with that exception made
explicit. -/

/-- AST of the ECMAScript regular-expression fragment modelled below:
character literals, `.`, character classes over ranges with optional
negation, grouping, alternation, concatenation and quantifiers. -/
inductive Reg where
  | eps
  | chr (c : Char)
  | any
  | cls (neg : Bool) (ranges : List (Char × Char))
  | alt (a b : Reg)
  | cat (a b : Reg)
  | star (a : Reg)

/-- The regular expression matching nothing (an empty character class). -/
def regEmpty : Reg := .cls false []

/-- The outcome of parsing a pattern: a genuine ECMAScript `SyntaxError`
(with the V8 reason text), or a construct the model does not cover —
`unmodelled` marks the model's own boundary, not a JavaScript error. -/
inductive RegParseError where
  | bad (reason : String)
  | unmodelled (construct : String)

/-- Whether a character is in the class described by `neg` and `ranges`. -/
def clsMatches (neg : Bool) (ranges : List (Char × Char)) (c : Char) : Bool :=
  let hit := ranges.any (fun r => decide (r.1 ≤ c ∧ c ≤ r.2))
  if neg then !hit else hit

/-- Whether a regular expression accepts the empty string. -/
def regNullable : Reg → Bool
  | .eps => true
  | .chr _ => false
  | .any => false
  | .cls _ _ => false
  | .alt a b => regNullable a || regNullable b
  | .cat a b => regNullable a && regNullable b
  | .star _ => true

/-- Brzozowski derivative: the residual expression after consuming `c`.
ECMAScript `.` (no `s` flag) matches every character except the four line
terminators. -/
def regDeriv : Reg → Char → Reg
  | .eps, _ => regEmpty
  | .chr d, c => if d == c then .eps else regEmpty
  | .any, c =>
      if c == '\n' || c == '\r' || c == '\u2028' || c == '\u2029' then regEmpty
      else .eps
  | .cls neg rs, c => if clsMatches neg rs c then .eps else regEmpty
  | .alt a b, c => .alt (regDeriv a c) (regDeriv b c)
  | .cat a b, c =>
      if regNullable a then .alt (.cat (regDeriv a c) b) (regDeriv b c)
      else .cat (regDeriv a c) b
  | .star a, c => .cat (regDeriv a c) (.star a)

/-- Whether some prefix of `cs` matches `r`. -/
def regMatchHere : Reg → List Char → Bool
  | r, [] => regNullable r
  | r, c :: cs => regNullable r || regMatchHere (regDeriv r c) cs

/-- Whether `r` matches somewhere inside `cs` — the semantics of
`RegExp.prototype.test` for a compiled pattern. -/
def regSearch : Reg → List Char → Bool
  | r, [] => regNullable r
  | r, c :: cs => regMatchHere r (c :: cs) || regSearch r cs

/-- The ranges of ECMAScript `\w`. -/
def wordRanges : List (Char × Char) :=
  [('0', '9'), ('A', 'Z'), ('_', '_'), ('a', 'z')]

/-- The ranges of ECMAScript `\s`: WhiteSpace and LineTerminator. -/
def spaceRanges : List (Char × Char) :=
  [('\t', '\t'), ('\n', '\n'), ('\x0b', '\x0b'), ('\x0c', '\x0c'),
   ('\r', '\r'), (' ', ' '), ('\u00A0', '\u00A0'), ('\u1680', '\u1680'),
   ('\u2000', '\u200A'), ('\u2028', '\u2029'), ('\u202F', '\u202F'),
   ('\u205F', '\u205F'), ('\u3000', '\u3000'), ('\uFEFF', '\uFEFF')]

/-- The character-set escapes `\d \D \w \W \s \S`: polarity and ranges. -/
def escapeRanges : Char → Option (Bool × List (Char × Char))
  | 'd' => some (false, [('0', '9')])
  | 'D' => some (true, [('0', '9')])
  | 'w' => some (false, wordRanges)
  | 'W' => some (true, wordRanges)
  | 's' => some (false, spaceRanges)
  | 'S' => some (true, spaceRanges)
  | _ => none

/-- The control escapes `\n \t \r \f \v \0`. -/
def controlEscape : Char → Option Char
  | 'n' => some '\n'
  | 't' => some '\t'
  | 'r' => some '\r'
  | 'f' => some '\x0c'
  | 'v' => some '\x0b'
  | '0' => some '\x00'
  | _ => none

/-- The value of one hexadecimal digit. -/
def hexDigitVal (c : Char) : Option Nat :=
  if '0' ≤ c ∧ c ≤ '9' then some (c.toNat - 48)
  else if 'a' ≤ c ∧ c ≤ 'f' then some (c.toNat - 87)
  else if 'A' ≤ c ∧ c ≤ 'F' then some (c.toNat - 55)
  else none

/-- Read exactly `n` hexadecimal digits. -/
def readHex : Nat → List Char → Option (Nat × List Char)
  | 0, cs => some (0, cs)
  | n + 1, c :: cs => do
      let d ← hexDigitVal c
      let (v, rest) ← readHex n cs
      some (d * 16 ^ n + v, rest)
  | _ + 1, [] => none

/-- A `\x`/`\u` escape: `digits` hexadecimal digits give the code point;
when they are not all present the escape is an identity escape on the
letter itself (Annex B).  Surrogate code units fall outside the model. -/
def hexCharEscape (digits : Nat) (fallback : Char) (cs : List Char) :
    Except RegParseError (Char × List Char) :=
  match readHex digits cs with
  | none => .ok (fallback, cs)
  | some (v, rest) =>
      if 0xD800 ≤ v ∧ v ≤ 0xDFFF then .error (.unmodelled "surrogate code unit escape")
      else .ok (Char.ofNat v, rest)

/-- An escape sequence in atom position (after `\` outside a class). -/
def parseEscapeAtom : List Char → Except RegParseError (Reg × List Char)
  | [] => .error (.bad "\\ at end of pattern")
  | e :: rest =>
      if e == 'b' || e == 'B' then .error (.unmodelled "word-boundary assertion")
      else if '1' ≤ e ∧ e ≤ '9' then
        .error (.unmodelled "backreference or legacy octal escape")
      else
        match escapeRanges e with
        | some (neg, rs) => .ok (.cls neg rs, rest)
        | none =>
            match controlEscape e with
            | some c => .ok (.chr c, rest)
            | none =>
                if e == 'x' then do
                  let (c, rest2) ← hexCharEscape 2 'x' rest
                  .ok (.chr c, rest2)
                else if e == 'u' then do
                  let (c, rest2) ← hexCharEscape 4 'u' rest
                  .ok (.chr c, rest2)
                else if e == 'c' then .error (.unmodelled "control-letter escape")
                else .ok (.chr e, rest)

/-- An escape sequence inside a character class: either a single character
(usable as a range endpoint) or a character set.  Inside a class `\b` is a
backspace. -/
def parseClassEscape : List Char →
    Except RegParseError ((Char ⊕ List (Char × Char)) × List Char)
  | [] => .error (.bad "\\ at end of pattern")
  | e :: rest =>
      if e == 'b' then .ok (.inl '\x08', rest)
      else if '1' ≤ e ∧ e ≤ '9' then
        .error (.unmodelled "backreference or legacy octal escape")
      else
        match escapeRanges e with
        | some (false, rs) => .ok (.inr rs, rest)
        | some (true, _) => .error (.unmodelled "negated set escape inside a class")
        | none =>
            match controlEscape e with
            | some c => .ok (.inl c, rest)
            | none =>
                if e == 'x' then do
                  let (c, rest2) ← hexCharEscape 2 'x' rest
                  .ok (.inl c, rest2)
                else if e == 'u' then do
                  let (c, rest2) ← hexCharEscape 4 'u' rest
                  .ok (.inl c, rest2)
                else if e == 'c' then .error (.unmodelled "control-letter escape")
                else .ok (.inl e, rest)

/-- The body of a character class, after `[` (and an optional `^`), up to
the closing `]`.  A `-` that cannot form a range is a literal. -/
def parseClassBody : Nat → Bool → List (Char × Char) → List Char →
    Except RegParseError (Reg × List Char)
  | 0, _, _, _ => .error (.bad "parser fuel exhausted")
  | _ + 1, _, _, [] => .error (.bad "Unterminated character class")
  | _ + 1, neg, acc, ']' :: rest => .ok (.cls neg acc, rest)
  | fuel + 1, neg, acc, c :: rest => do
      let (first, rest1) ←
        if c == '\\' then parseClassEscape rest
        else pure (Sum.inl c, rest)
      match first with
      | .inr rs => parseClassBody fuel neg (acc ++ rs) rest1
      | .inl c1 =>
          match rest1 with
          | '-' :: ']' :: rest2 => .ok (.cls neg (acc ++ [(c1, c1), ('-', '-')]), rest2)
          | '-' :: d :: rest2 => do
              let (second, rest3) ←
                if d == '\\' then parseClassEscape rest2
                else pure (Sum.inl d, rest2)
              match second with
              | .inr _ => .error (.unmodelled "set escape as a range endpoint")
              | .inl c2 =>
                  if c1 ≤ c2 then parseClassBody fuel neg (acc ++ [(c1, c2)]) rest3
                  else .error (.bad "Range out of order in character class")
          | _ => parseClassBody fuel neg (acc ++ [(c1, c1)]) rest1
termination_by structural fuel _n _a _c => fuel

/-- One or more decimal digits. -/
def parseNatChars (cs : List Char) : Option (Nat × List Char) :=
  let ds := cs.takeWhile (·.isDigit)
  if ds.isEmpty then none
  else some (ds.foldl (fun n c => 10 * n + (c.toNat - 48)) 0, cs.drop ds.length)

/-- The bounds of a brace quantifier, after the opening brace: digits,
an optional comma with optional upper bound, and the closing brace.
`none` means the text is not a quantifier and the brace is a literal
(Annex B). -/
def parseBraceBounds (cs : List Char) : Option (Nat × Option Nat × List Char) := do
  let (n, rest) ← parseNatChars cs
  match rest with
  | '\x7d' :: rest2 => some (n, some n, rest2)
  | ',' :: '\x7d' :: rest2 => some (n, none, rest2)
  | ',' :: rest2 => do
      let (m, rest3) ← parseNatChars rest2
      match rest3 with
      | '\x7d' :: rest4 => some (n, some m, rest4)
      | _ => none
  | _ => none

/-- `n`-fold concatenation of a regular expression. -/
def regPow (r : Reg) : Nat → Reg
  | 0 => .eps
  | n + 1 => .cat r (regPow r n)

/-- At most `n` further copies of a regular expression. -/
def regUpTo (r : Reg) : Nat → Reg
  | 0 => .eps
  | n + 1 => .alt .eps (.cat r (regUpTo r n))

/-- The brace quantifier: at least `n` copies, at most `mo` when bounded. -/
def regRep (r : Reg) (n : Nat) : Option Nat → Reg
  | none => .cat (regPow r n) (.star r)
  | some m => .cat (regPow r n) (regUpTo r (m - n))

/-- Skip the laziness marker after a quantifier; greediness does not
affect `test`. -/
def skipLazy : List Char → List Char
  | '?' :: r => r
  | r => r

mutual

/-- A disjunction: alternatives separated by `|`. -/
def parseDisj : Nat → List Char → Except RegParseError (Reg × List Char)
  | 0, _ => .error (.bad "parser fuel exhausted")
  | fuel + 1, cs => do
      let (r, rest) ← parseSeq fuel cs
      match rest with
      | '|' :: rest2 => do
          let (r2, rest3) ← parseDisj fuel rest2
          .ok (.alt r r2, rest3)
      | _ => .ok (r, rest)
termination_by structural fuel _c => fuel

/-- One alternative: a sequence of terms, ending at the end of the
pattern, at `|`, or at `)`. -/
def parseSeq : Nat → List Char → Except RegParseError (Reg × List Char)
  | 0, _ => .error (.bad "parser fuel exhausted")
  | fuel + 1, cs =>
      match cs with
      | [] => .ok (.eps, [])
      | '|' :: _ => .ok (.eps, cs)
      | ')' :: _ => .ok (.eps, cs)
      | _ => do
          let (t, rest) ← parseTerm fuel cs
          let (r, rest2) ← parseSeq fuel rest
          .ok (.cat t r, rest2)
termination_by structural fuel _c => fuel

/-- One term: an atom with an optional quantifier.  A brace that does not
form a quantifier is left for the next atom as a literal (Annex B). -/
def parseTerm : Nat → List Char → Except RegParseError (Reg × List Char)
  | 0, _ => .error (.bad "parser fuel exhausted")
  | fuel + 1, cs => do
      let (a, rest) ← parseAtom fuel cs
      match rest with
      | '*' :: r2 => .ok (.star a, skipLazy r2)
      | '+' :: r2 => .ok (.cat a (.star a), skipLazy r2)
      | '?' :: r2 => .ok (.alt .eps a, skipLazy r2)
      | '\x7b' :: r2 =>
          match parseBraceBounds r2 with
          | none => .ok (a, rest)
          | some (n, mo, r3) =>
              match mo with
              | some m =>
                  if n ≤ m then .ok (regRep a n (some m), skipLazy r3)
                  else .error (.bad "numbers out of order in \x7b\x7d quantifier")
              | none => .ok (regRep a n none, skipLazy r3)
      | _ => .ok (a, rest)
termination_by structural fuel _c => fuel

/-- The inside of a group, up to the closing parenthesis. -/
def parseGroupTail : Nat → List Char → Except RegParseError (Reg × List Char)
  | 0, _ => .error (.bad "parser fuel exhausted")
  | fuel + 1, cs => do
      let (r, rest) ← parseDisj fuel cs
      match rest with
      | ')' :: rest2 => .ok (r, rest2)
      | _ => .error (.bad "Unterminated group")
termination_by structural fuel _c => fuel

/-- One atom: a group, a class, an escape, `.` or a literal character.
A quantifier with nothing before it is a `SyntaxError`; assertions,
lookaround and named groups fall outside the modelled fragment. -/
def parseAtom : Nat → List Char → Except RegParseError (Reg × List Char)
  | 0, _ => .error (.bad "parser fuel exhausted")
  | fuel + 1, cs =>
      match cs with
      | [] => .error (.bad "unexpected end of pattern")
      | '(' :: '?' :: ':' :: rest2 => parseGroupTail fuel rest2
      | '(' :: '?' :: _ => .error (.unmodelled "lookaround or named group")
      | '(' :: rest => parseGroupTail fuel rest
      | '[' :: '^' :: rest => parseClassBody fuel true [] rest
      | '[' :: rest => parseClassBody fuel false [] rest
      | '\\' :: rest => parseEscapeAtom rest
      | '^' :: _ => .error (.unmodelled "assertion")
      | '$' :: _ => .error (.unmodelled "assertion")
      | '*' :: _ => .error (.bad "Nothing to repeat")
      | '+' :: _ => .error (.bad "Nothing to repeat")
      | '?' :: _ => .error (.bad "Nothing to repeat")
      | '.' :: rest => .ok (.any, rest)
      | c :: rest => .ok (.chr c, rest)
termination_by structural fuel _c => fuel

end

/-- Parse a whole pattern.  The fuel dominates the recursion depth: every
parser step either consumes a character or descends into a construct
opened by one. -/
def parsePattern (cs : List Char) : Except RegParseError Reg :=
  match parseDisj (8 * cs.length + 8) cs with
  | .error e => .error e
  | .ok (r, []) => .ok r
  | .ok (_, ')' :: _) => .error (.bad "Unmatched ')'")
  | .ok (_, _) => .error (.bad "unexpected trailing characters")

/-- Model of the `new RegExp(pattern)` construction (no flags argument):
either a compiled pattern or the thrown `SyntaxError`, with the V8 message
shape.  An `unmodelled` outcome is reported verbatim: it marks the model's
boundary, not a JavaScript throw. -/
def jsRegExpCompile (pat : String) : Except String Reg :=
  match parsePattern pat.toList with
  | .ok r => .ok r
  | .error (.bad reason) =>
      .error ("SyntaxError: Invalid regular expression: /" ++ pat ++ "/: " ++ reason)
  | .error (.unmodelled construct) =>
      .error ("unmodelled RegExp construct: " ++ construct)

/-- Model of `new RegExp(pat).test(subj)`: compile, then search. -/
def jsRegExpTest (pat subj : String) : Except String Bool :=
  match jsRegExpCompile pat with
  | .error e => .error e
  | .ok r => .ok (regSearch r subj.toList)

/-- The pattern string the `RegExp` constructor derives from its argument:
an `undefined` pattern yields the empty pattern, anything else is
`ToString`-coerced (a string is taken as is). -/
def regExpPatternOf : JValue → String
  | .undef => ""
  | .str s => s
  | v => jsToString v

/-- Embeds `RuleEngine.evaluateCondition` (ruleEngine.ts lines 21-79) a
second time, now tracking the one exception the body can raise.  Every arm
except `regex` is the same total computation as in `evaluateCondition`;
the `regex` arm is the source line 75,

  return new RegExp(value).test(String(contextValue));

whose constructor call is modelled by `jsRegExpCompile`.  There is no
try/catch anywhere in the evaluation pipeline, so a compile failure
escapes as a thrown `SyntaxError`, here an `.error`. -/
def evaluateConditionExn (condition : RuleCondition) (ctx : RequestContext) :
    Except String Bool :=
  match extractContextValue condition.type ctx with
  | none => .ok false
  | some contextValue =>
      match condition.operator with
      | "eq" => .ok (jsStrictEq contextValue condition.value)
      | "ne" => .ok (!(jsStrictEq contextValue condition.value))
      | "gt" => .ok (jsGt contextValue condition.value)
      | "lt" => .ok (jsLt contextValue condition.value)
      | "gte" => .ok (jsGe contextValue condition.value)
      | "lte" => .ok (jsLe contextValue condition.value)
      | "in" =>
          .ok (match condition.value with
               | .arr xs => xs.any (fun v => jsStrictEq v contextValue)
               | _ => false)
      | "regex" =>
          jsRegExpTest (regExpPatternOf condition.value) (jsToString contextValue)
      | _ => .ok false

/-- C6: the claim is false of the code, and the divergence is a bug in the
code.  The claim — with spec section 7, which lists "regex compile failure"
among the failures "recovered in-place" and promises that "inside the
evaluation pipeline no error is ever thrown" — says condition evaluation is
total and never throws.  But the source evaluates the `regex` operator as
`new RegExp(value).test(String(contextValue))` with no try/catch, so the
JSON-representable pattern "(" makes the constructor throw a `SyntaxError`
that escapes `evaluateCondition` for every request context, instead of the
condition degrading to false. -/
theorem c6_regex_condition_throws (ctx : RequestContext) :
    evaluateConditionExn ⟨"os", "regex", .str "("⟩ ctx =
      .error "SyntaxError: Invalid regular expression: /(/: Unterminated group" :=
  rfl


/-! ## C3 — short-circuit precedence of evaluateRule -/

/-- The conjunction of a rule's primitive conditions against a context —
the uncached value memoised by `evaluateRuleBasic`. -/
def basicConditions (rule : ConfigRule) (ctx : RequestContext) : Bool :=
  rule.conditions.all (fun c => evaluateCondition c ctx)

theorem evaluateRuleBasic_eq (cache : EvalCache) (rule : ConfigRule)
    (ctx : RequestContext) (hen : rule.enabled = true)
    (hcache : ∀ b, lookupKey cache rule.id = some b → b = basicConditions rule ctx) :
    evaluateRuleBasic cache rule ctx =
      (basicConditions rule ctx, (evaluateRuleBasic cache rule ctx).2) := by
  unfold evaluateRuleBasic
  cases hl : lookupKey cache rule.id with
  | none => simp [hen, hl, basicConditions]
  | some b => simp [hen, hl, hcache b hl]

/-- After the enabled, exclusion and dependency checks pass and a chain is
present, `evaluateRule` reduces to the chain-then-basic tail of its body. -/
theorem evaluateRule_past_checks_chain (reg : List ConfigRule) (cache : EvalCache)
    (rule : ConfigRule) (ctx : RequestContext) (mids : List String) (ch : RuleChain)
    (hen : rule.enabled = true)
    (hno : ∀ ex, rule.exclusions = some ex → ∀ id ∈ ex, id ∉ mids)
    (hall : ∀ ds, rule.dependencies = some ds → ∀ id ∈ ds, id ∈ mids)
    (hch : rule.chain = some ch) :
    evaluateRule reg cache rule ctx mids =
      (let (chainResult, cache') := evaluateRuleChain reg cache ch ctx
       if !chainResult then
         ({ matched := false, rule := rule, reason := "Chain evaluation failed" },
          cache')
       else
         let (basicMatch, cache'') := evaluateRuleBasic cache' rule ctx
         ({ matched := basicMatch, rule := rule,
            reason := if basicMatch then "All conditions met"
                      else "Conditions not met" }, cache'')) := by
  cases hx : rule.exclusions with
  | none =>
      cases hd : rule.dependencies with
      | none => simp [evaluateRule, hen, hx, hd, hch]
      | some ds =>
          have hds : ∀ x ∈ ds, x ∈ mids := fun x hm => hall ds hd x hm
          simp [evaluateRule, hen, hx, hd, hch, hds]
          exact fun x hm hn => absurd (hds x hm) hn
  | some ex =>
      have hne : ¬ ∃ x ∈ ex, x ∈ mids := by
        rintro ⟨x, hm, hi⟩
        exact hno ex hx x hm hi
      cases hd : rule.dependencies with
      | none => simp [evaluateRule, hen, hx, hd, hne, hch]
      | some ds =>
          have hds : ∀ x ∈ ds, x ∈ mids := fun x hm => hall ds hd x hm
          simp [evaluateRule, hen, hx, hd, hne, hch, hds]
          exact fun x hm hn => absurd (hds x hm) hn

/-- After the enabled, exclusion and dependency checks pass and no chain is
present, `evaluateRule` reduces to the basic-evaluation tail of its body. -/
theorem evaluateRule_past_checks_nochain (reg : List ConfigRule) (cache : EvalCache)
    (rule : ConfigRule) (ctx : RequestContext) (mids : List String)
    (hen : rule.enabled = true)
    (hno : ∀ ex, rule.exclusions = some ex → ∀ id ∈ ex, id ∉ mids)
    (hall : ∀ ds, rule.dependencies = some ds → ∀ id ∈ ds, id ∈ mids)
    (hch : rule.chain = none) :
    evaluateRule reg cache rule ctx mids =
      (let (basicMatch, cache') := evaluateRuleBasic cache rule ctx
       ({ matched := basicMatch, rule := rule,
          reason := if basicMatch then "All conditions met"
                    else "Conditions not met" }, cache')) := by
  cases hx : rule.exclusions with
  | none =>
      cases hd : rule.dependencies with
      | none => simp [evaluateRule, hen, hx, hd, hch]
      | some ds =>
          have hds : ∀ x ∈ ds, x ∈ mids := fun x hm => hall ds hd x hm
          simp [evaluateRule, hen, hx, hd, hch, hds]
          exact fun x hm hn => absurd (hds x hm) hn
  | some ex =>
      have hne : ¬ ∃ x ∈ ex, x ∈ mids := by
        rintro ⟨x, hm, hi⟩
        exact hno ex hx x hm hi
      cases hd : rule.dependencies with
      | none => simp [evaluateRule, hen, hx, hd, hne, hch]
      | some ds =>
          have hds : ∀ x ∈ ds, x ∈ mids := fun x hm => hall ds hd x hm
          simp [evaluateRule, hen, hx, hd, hne, hch, hds]
          exact fun x hm hn => absurd (hds x hm) hn

/-- The first component of the basic-evaluation tail, under a consistent
memo cache. -/
theorem basicTail_fst (cache : EvalCache) (rule : ConfigRule) (ctx : RequestContext)
    (hen : rule.enabled = true)
    (hcache : ∀ b, lookupKey cache rule.id = some b → b = basicConditions rule ctx) :
    (let (basicMatch, cache') := evaluateRuleBasic cache rule ctx
     (({ matched := basicMatch, rule := rule,
         reason := if basicMatch then "All conditions met"
                   else "Conditions not met" } : RuleEvaluationResult), cache')).1 =
    { matched := basicConditions rule ctx, rule := rule,
      reason := if basicConditions rule ctx then "All conditions met"
                else "Conditions not met" } := by
  have hb := evaluateRuleBasic_eq cache rule ctx hen hcache
  rw [hb]

/-- C3: `evaluateRule` applies its short-circuit checks in exactly the
claimed precedence: (1) a disabled rule yields "Rule disabled"; (2) else
an exclusion id already matched yields "Excluded by another rule";
(3) else a dependency id not yet matched yields "Missing dependencies";
(4) else a present chain evaluating false yields "Chain evaluation
failed"; (5) else the rule matches iff every primitive condition passes,
with reason "All conditions met" or "Conditions not met".  The last part
is stated for a memo cache whose entry for the rule id, if any, agrees
with the rule's condition conjunction (the per-run cache only ever holds
such values). -/
theorem c3_evaluate_rule_precedence (reg : List ConfigRule) (cache : EvalCache)
    (rule : ConfigRule) (ctx : RequestContext) (mids : List String) :
    (rule.enabled = false →
      (evaluateRule reg cache rule ctx mids).1 =
        { matched := false, rule := rule, reason := "Rule disabled" }) ∧
    (rule.enabled = true →
      (∃ ex, rule.exclusions = some ex ∧ ∃ id ∈ ex, id ∈ mids) →
      (evaluateRule reg cache rule ctx mids).1 =
        { matched := false, rule := rule, reason := "Excluded by another rule" }) ∧
    (rule.enabled = true →
      (∀ ex, rule.exclusions = some ex → ∀ id ∈ ex, id ∉ mids) →
      (∃ ds, rule.dependencies = some ds ∧ ∃ id ∈ ds, id ∉ mids) →
      (evaluateRule reg cache rule ctx mids).1 =
        { matched := false, rule := rule, reason := "Missing dependencies" }) ∧
    (rule.enabled = true →
      (∀ ex, rule.exclusions = some ex → ∀ id ∈ ex, id ∉ mids) →
      (∀ ds, rule.dependencies = some ds → ∀ id ∈ ds, id ∈ mids) →
      ∀ ch, rule.chain = some ch → (evaluateRuleChain reg cache ch ctx).1 = false →
      (evaluateRule reg cache rule ctx mids).1 =
        { matched := false, rule := rule, reason := "Chain evaluation failed" }) ∧
    (rule.enabled = true →
      (∀ ex, rule.exclusions = some ex → ∀ id ∈ ex, id ∉ mids) →
      (∀ ds, rule.dependencies = some ds → ∀ id ∈ ds, id ∈ mids) →
      rule.chain = none →
      (∀ b, lookupKey cache rule.id = some b → b = basicConditions rule ctx) →
      (evaluateRule reg cache rule ctx mids).1 =
        { matched := basicConditions rule ctx, rule := rule,
          reason := if basicConditions rule ctx then "All conditions met"
                    else "Conditions not met" }) ∧
    (rule.enabled = true →
      (∀ ex, rule.exclusions = some ex → ∀ id ∈ ex, id ∉ mids) →
      (∀ ds, rule.dependencies = some ds → ∀ id ∈ ds, id ∈ mids) →
      ∀ ch, rule.chain = some ch → (evaluateRuleChain reg cache ch ctx).1 = true →
      (∀ b, lookupKey (evaluateRuleChain reg cache ch ctx).2 rule.id = some b →
        b = basicConditions rule ctx) →
      (evaluateRule reg cache rule ctx mids).1 =
        { matched := basicConditions rule ctx, rule := rule,
          reason := if basicConditions rule ctx then "All conditions met"
                    else "Conditions not met" }) := by
  refine ⟨?_, ?_, ?_, ?_, ?_, ?_⟩
  · intro hen
    simp [evaluateRule, hen]
  · intro hen hex
    obtain ⟨ex, hexeq, id, hmem, hin⟩ := hex
    have hex' : ∃ x ∈ ex, x ∈ mids := ⟨id, hmem, hin⟩
    simp [evaluateRule, hen, hexeq, hex']
  · intro hen hno hdep
    obtain ⟨ds, hdseq, id, hmem, hnin⟩ := hdep
    have hdep' : ∃ x ∈ ds, x ∉ mids := ⟨id, hmem, hnin⟩
    cases hx : rule.exclusions with
    | none => simp [evaluateRule, hen, hx, hdseq, hdep']
    | some ex =>
        have hne : ¬ ∃ x ∈ ex, x ∈ mids := by
          rintro ⟨x, hm, hi⟩
          exact hno ex hx x hm hi
        simp [evaluateRule, hen, hx, hne, hdseq, hdep']
  · intro hen hno hall ch hch hchain
    rw [evaluateRule_past_checks_chain reg cache rule ctx mids ch hen hno hall hch]
    have hpair : evaluateRuleChain reg cache ch ctx =
        (false, (evaluateRuleChain reg cache ch ctx).2) := by
      rw [← hchain]
    rw [hpair]
    rfl
  · intro hen hno hall hch hcache
    rw [evaluateRule_past_checks_nochain reg cache rule ctx mids hen hno hall hch]
    exact basicTail_fst cache rule ctx hen hcache
  · intro hen hno hall ch hch hchain hcache
    rw [evaluateRule_past_checks_chain reg cache rule ctx mids ch hen hno hall hch]
    have hpair : evaluateRuleChain reg cache ch ctx =
        (true, (evaluateRuleChain reg cache ch ctx).2) := by
      rw [← hchain]
    rw [hpair]
    exact basicTail_fst ((evaluateRuleChain reg cache ch ctx).2) rule ctx hen hcache

/-- A rule with all-default attributes, used to build fixtures. -/
def mkRule (id : String) : ConfigRule :=
  { id := id
    name := id
    description := none
    priority := 0
    conditions := []
    config := .obj []
    resolutionStrategy := "merge"
    enabled := true
    dependencies := none
    exclusions := none
    chain := none
    executeAfter := none
    executeBefore := none
    stopPropagation := false
    composition := none
    tags := none
    metadata := .undef }

/-- A disabled fixture rule. -/
def rDisabled : ConfigRule := { mkRule "dis" with enabled := false }

/-- A fixture rule excluded by rule id `done`. -/
def rExcluded : ConfigRule := { mkRule "exc" with exclusions := some ["done"] }

/-- A fixture rule depending on the absent rule id `nope`. -/
def rMissingDep : ConfigRule := { mkRule "dep" with dependencies := some ["nope"] }

/-- A fixture rule whose chain references an unregistered rule id. -/
def rChainFail : ConfigRule :=
  { mkRule "chf" with chain := some (.mk "AND" [.rid "absent"]) }

/-- A fixture rule with an empty (vacuously true) AND chain. -/
def rChainOk : ConfigRule := { mkRule "cho" with chain := some (.mk "AND" []) }

/-- C3 witness: each precedence step of the theorem applied at a concrete
rule, context and matched-id set. -/
theorem c3_evaluate_rule_precedence_witness :
    (evaluateRule [] [] rDisabled baseCtx []).1 =
      { matched := false, rule := rDisabled, reason := "Rule disabled" } ∧
    (evaluateRule [] [] rExcluded baseCtx ["done"]).1 =
      { matched := false, rule := rExcluded, reason := "Excluded by another rule" } ∧
    (evaluateRule [] [] rMissingDep baseCtx []).1 =
      { matched := false, rule := rMissingDep, reason := "Missing dependencies" } ∧
    (evaluateRule [] [] rChainFail baseCtx []).1 =
      { matched := false, rule := rChainFail, reason := "Chain evaluation failed" } ∧
    (evaluateRule [] [] (mkRule "plain") baseCtx []).1 =
      { matched := basicConditions (mkRule "plain") baseCtx, rule := mkRule "plain",
        reason := if basicConditions (mkRule "plain") baseCtx then "All conditions met"
                  else "Conditions not met" } ∧
    (evaluateRule [] [] rChainOk baseCtx []).1 =
      { matched := basicConditions rChainOk baseCtx, rule := rChainOk,
        reason := if basicConditions rChainOk baseCtx then "All conditions met"
                  else "Conditions not met" } := by
  refine ⟨(c3_evaluate_rule_precedence [] [] rDisabled baseCtx []).1 rfl,
    (c3_evaluate_rule_precedence [] [] rExcluded baseCtx ["done"]).2.1 rfl
      ⟨["done"], rfl, "done", by decide, by decide⟩,
    (c3_evaluate_rule_precedence [] [] rMissingDep baseCtx []).2.2.1 rfl
      (by intro ex hex; cases hex) ⟨["nope"], rfl, "nope", by decide, by decide⟩,
    (c3_evaluate_rule_precedence [] [] rChainFail baseCtx []).2.2.2.1 rfl
      (by intro ex hex; cases hex) (by intro ds hds; cases hds)
      (.mk "AND" [.rid "absent"]) rfl rfl,
    (c3_evaluate_rule_precedence [] [] (mkRule "plain") baseCtx []).2.2.2.2.1 rfl
      (by intro ex hex; cases hex) (by intro ds hds; cases hds) rfl
      (by intro b hb; cases hb),
    (c3_evaluate_rule_precedence [] [] rChainOk baseCtx []).2.2.2.2.2 rfl
      (by intro ex hex; cases hex) (by intro ds hds; cases hds)
      (.mk "AND" []) rfl rfl (by intro b hb; cases hb)⟩

/-! ## C4 — chain evaluation semantics -/

theorem lookupKey_setKey_self {α : Type} (m : List (String × α)) (k : String) (v : α) :
    lookupKey (setKey m k v) k = some v := by
  induction m with
  | nil => simp [setKey, lookupKey]
  | cons kv rest ih =>
      obtain ⟨k', v'⟩ := kv
      by_cases h : (k' == k) = true <;> simp [setKey, lookupKey, h, ih]

theorem lookupKey_setKey_ne {α : Type} (m : List (String × α)) (k k' : String) (v : α)
    (h : k' ≠ k) : lookupKey (setKey m k v) k' = lookupKey m k' := by
  induction m with
  | nil =>
      simp only [setKey, lookupKey]
      rw [if_neg (by simpa using Ne.symm h)]
  | cons kv rest ih =>
      obtain ⟨k0, v0⟩ := kv
      by_cases h0 : (k0 == k) = true
      · have hk0 : k0 = k := by simpa using h0
        subst hk0
        simp only [setKey, if_pos h0, lookupKey]
        rw [if_neg (by simpa using Ne.symm h), if_neg (by simpa using Ne.symm h)]
      · simp only [setKey, if_neg h0, lookupKey]
        by_cases h1 : (k0 == k') = true
        · rw [if_pos h1, if_pos h1]
        · rw [if_neg h1, if_neg h1]
          exact ih

/-- The rule found in the registry carries the looked-up id. -/
theorem regFind_id (reg : List ConfigRule) (id : String) (r : ConfigRule)
    (h : regFind reg id = some r) : r.id = id := by
  have := List.find?_some h
  simpa using this

mutual

/-- The cache-free denotation of a rule chain. -/
def chainDenote (reg : List ConfigRule) (ctx : RequestContext) : RuleChain → Bool
  | .mk op items => applyChainOp op (itemsDenote reg ctx items)

/-- The cache-free denotations of the items of a chain. -/
def itemsDenote (reg : List ConfigRule) (ctx : RequestContext) :
    List ChainItem → List Bool
  | [] => []
  | item :: rest => itemDenote reg ctx item :: itemsDenote reg ctx rest

/-- The cache-free denotation of one chain item: a rule id resolves via
the registry to the rule's basic evaluation — enabled and all primitive
conditions pass — and an unknown id is false. -/
def itemDenote (reg : List ConfigRule) (ctx : RequestContext) : ChainItem → Bool
  | .rid id =>
      match regFind reg id with
      | none => false
      | some r => r.enabled && basicConditions r ctx
  | .nested c => chainDenote reg ctx c

end

/-- Consistency of the memo cache with the registry: every entry stores
the basic evaluation of the registered rule with that id.  The empty cache
is trivially consistent, and every run starts from the empty cache. -/
def CacheOK (reg : List ConfigRule) (ctx : RequestContext) (cache : EvalCache) : Prop :=
  ∀ id b, lookupKey cache id = some b →
    ∀ r, regFind reg id = some r → b = (r.enabled && basicConditions r ctx)

theorem evaluateRuleBasic_ok (reg : List ConfigRule) (ctx : RequestContext)
    (cache : EvalCache) (r : ConfigRule) (hr : regFind reg r.id = some r)
    (hOK : CacheOK reg ctx cache) :
    (evaluateRuleBasic cache r ctx).1 = (r.enabled && basicConditions r ctx) ∧
    CacheOK reg ctx (evaluateRuleBasic cache r ctx).2 := by
  cases hen : r.enabled with
  | false =>
      have he : evaluateRuleBasic cache r ctx = (false, cache) := by
        unfold evaluateRuleBasic
        rw [hen]
        rfl
      rw [he]
      exact ⟨by simp [hen], hOK⟩
  | true =>
      cases hl : lookupKey cache r.id with
      | some b =>
          have he : evaluateRuleBasic cache r ctx = (b, cache) := by
            unfold evaluateRuleBasic
            rw [hen, hl]
            rfl
          rw [he]
          have hb := hOK r.id b hl r hr
          exact ⟨by simpa [hen] using hb, hOK⟩
      | none =>
          have he : evaluateRuleBasic cache r ctx =
              (basicConditions r ctx, setKey cache r.id (basicConditions r ctx)) := by
            unfold evaluateRuleBasic
            rw [hen, hl]
            rfl
          rw [he]
          refine ⟨by simp [hen], ?_⟩
          intro id' b' hl' r' hr'
          by_cases hid : id' = r.id
          · subst hid
            rw [lookupKey_setKey_self] at hl'
            rw [hr] at hr'
            have hrr : r' = r := (Option.some.inj hr').symm
            subst hrr
            rw [hen, ← Option.some.inj hl']
            simp
          · rw [lookupKey_setKey_ne _ _ _ _ hid] at hl'
            exact hOK id' b' hl' r' hr'

mutual

theorem evaluateRuleChain_ok (reg : List ConfigRule) (cache : EvalCache)
    (c : RuleChain) (ctx : RequestContext) (hOK : CacheOK reg ctx cache) :
    (evaluateRuleChain reg cache c ctx).1 = chainDenote reg ctx c ∧
    CacheOK reg ctx (evaluateRuleChain reg cache c ctx).2 := by
  match c with
  | .mk op items =>
      rcases hi : evalChainItems reg cache items ctx with ⟨results, cache'⟩
      have h := evalChainItems_ok reg cache items ctx hOK
      rw [hi] at h
      have hres : results = itemsDenote reg ctx items := h.1
      have hc : CacheOK reg ctx cache' := h.2
      constructor
      · simp only [evaluateRuleChain, hi, chainDenote]
        rw [hres]
      · simp only [evaluateRuleChain, hi]
        exact hc

theorem evalChainItems_ok (reg : List ConfigRule) (cache : EvalCache)
    (items : List ChainItem) (ctx : RequestContext) (hOK : CacheOK reg ctx cache) :
    (evalChainItems reg cache items ctx).1 = itemsDenote reg ctx items ∧
    CacheOK reg ctx (evalChainItems reg cache items ctx).2 := by
  match items with
  | [] => exact ⟨rfl, hOK⟩
  | item :: rest =>
      rcases hi : evalChainItem reg cache item ctx with ⟨b, cache1⟩
      have h1 := evalChainItem_ok reg cache item ctx hOK
      rw [hi] at h1
      have hb : b = itemDenote reg ctx item := h1.1
      have hc1 : CacheOK reg ctx cache1 := h1.2
      rcases hrest : evalChainItems reg cache1 rest ctx with ⟨bs, cache2⟩
      have h2 := evalChainItems_ok reg cache1 rest ctx hc1
      rw [hrest] at h2
      have hbs : bs = itemsDenote reg ctx rest := h2.1
      have hc2 : CacheOK reg ctx cache2 := h2.2
      constructor
      · simp only [evalChainItems, hi, hrest, itemsDenote]
        rw [hb, hbs]
      · simp only [evalChainItems, hi, hrest]
        exact hc2

theorem evalChainItem_ok (reg : List ConfigRule) (cache : EvalCache)
    (item : ChainItem) (ctx : RequestContext) (hOK : CacheOK reg ctx cache) :
    (evalChainItem reg cache item ctx).1 = itemDenote reg ctx item ∧
    CacheOK reg ctx (evalChainItem reg cache item ctx).2 := by
  match item with
  | .rid id =>
      cases hr : regFind reg id with
      | none =>
          constructor
          · simp only [evalChainItem, hr, itemDenote]
          · simp only [evalChainItem, hr]
            exact hOK
      | some r =>
          have hid : r.id = id := regFind_id reg id r hr
          have hb := evaluateRuleBasic_ok reg ctx cache r (hid ▸ hr) hOK
          constructor
          · simp only [evalChainItem, hr, itemDenote]
            exact hb.1
          · simp only [evalChainItem, hr]
            exact hb.2
  | .nested c => exact evaluateRuleChain_ok reg cache c ctx hOK

end

/-- C4: chain evaluation resolves a string item via the registry to that
rule's basic evaluation — enabled and all primitive conditions pass —
never re-applying the referenced rule's dependencies, exclusions or chain;
an unknown rule id evaluates to false; a nested chain recurses; and the
operator combines the item results as AND (all), OR (some), NOT (negation
of the first item only), XOR (exactly one true), with any unknown operator
yielding false.  Stated under a consistent memo cache (every run starts
from the empty cache, which is trivially consistent). -/
theorem c4_chain_evaluation (reg : List ConfigRule) (cache : EvalCache)
    (ctx : RequestContext) (hOK : CacheOK reg ctx cache) :
    (∀ id, (evalChainItem reg cache (.rid id) ctx).1 =
      (match regFind reg id with
       | none => false
       | some r => r.enabled && basicConditions r ctx)) ∧
    (∀ c, (evalChainItem reg cache (.nested c) ctx).1 = chainDenote reg ctx c) ∧
    (∀ items, (evaluateRuleChain reg cache (.mk "AND" items) ctx).1 =
      (itemsDenote reg ctx items).all (fun b => b)) ∧
    (∀ items, (evaluateRuleChain reg cache (.mk "OR" items) ctx).1 =
      (itemsDenote reg ctx items).any (fun b => b)) ∧
    (∀ item rest, (evaluateRuleChain reg cache (.mk "NOT" (item :: rest)) ctx).1 =
      !(itemDenote reg ctx item)) ∧
    (∀ items, (evaluateRuleChain reg cache (.mk "XOR" items) ctx).1 =
      (((itemsDenote reg ctx items).filter (fun b => b)).length == 1)) ∧
    (∀ op items, op ∉ (["AND", "OR", "NOT", "XOR"] : List String) →
      (evaluateRuleChain reg cache (.mk op items) ctx).1 = false) := by
  refine ⟨?_, ?_, ?_, ?_, ?_, ?_, ?_⟩
  · intro id
    rw [(evalChainItem_ok reg cache (.rid id) ctx hOK).1]
    simp only [itemDenote]
  · intro c
    rw [(evalChainItem_ok reg cache (.nested c) ctx hOK).1]
    simp only [itemDenote]
  · intro items
    rw [(evaluateRuleChain_ok reg cache (.mk "AND" items) ctx hOK).1]
    simp only [chainDenote, applyChainOp]
  · intro items
    rw [(evaluateRuleChain_ok reg cache (.mk "OR" items) ctx hOK).1]
    simp only [chainDenote, applyChainOp]
  · intro item rest
    rw [(evaluateRuleChain_ok reg cache (.mk "NOT" (item :: rest)) ctx hOK).1]
    simp only [chainDenote, applyChainOp, itemsDenote, List.headD]
  · intro items
    rw [(evaluateRuleChain_ok reg cache (.mk "XOR" items) ctx hOK).1]
    simp only [chainDenote, applyChainOp]
  · intro op items hop
    rw [(evaluateRuleChain_ok reg cache (.mk op items) ctx hOK).1]
    simp only [List.mem_cons, List.mem_singleton, not_or] at hop
    obtain ⟨h1, h2, h3, h4, -⟩ := hop
    simp_all [chainDenote, applyChainOp]

/-- A fixture rule that is enabled with no conditions but carries unmet
dependencies, exclusions and a failing chain — all ignored by chain-item
evaluation. -/
def rChainBase : ConfigRule :=
  { mkRule "A" with
      dependencies := some ["missing"]
      exclusions := some ["B"]
      chain := some (.mk "AND" [.rid "ghost"]) }

/-- A disabled fixture rule. -/
def rChainDisabled : ConfigRule := { mkRule "B" with enabled := false }

/-- A two-rule registry for the chain witnesses. -/
def chainReg : List ConfigRule := [rChainBase, rChainDisabled]

/-- C4 witness: the theorem applied at a concrete registry — the item for
rule `A` is true although `A` has unmet dependencies, exclusions and a
failing chain of its own; the unknown id `ghost` is false; and each
operator combines concrete items as claimed. -/
theorem c4_chain_evaluation_witness :
    (evalChainItem chainReg [] (.rid "A") baseCtx).1 = true ∧
    (evalChainItem chainReg [] (.rid "ghost") baseCtx).1 = false ∧
    (evaluateRuleChain chainReg [] (.mk "AND" [.rid "A", .rid "ghost"]) baseCtx).1 =
      false ∧
    (evaluateRuleChain chainReg [] (.mk "OR" [.rid "A", .rid "ghost"]) baseCtx).1 =
      true ∧
    (evaluateRuleChain chainReg [] (.mk "NOT" [.rid "A"]) baseCtx).1 = false ∧
    (evaluateRuleChain chainReg [] (.mk "XOR" [.rid "A", .rid "ghost"]) baseCtx).1 =
      true ∧
    (evaluateRuleChain chainReg [] (.mk "NAND" [.rid "A"]) baseCtx).1 = false := by
  have hOK : CacheOK chainReg baseCtx [] := by
    intro id b h
    simp [lookupKey] at h
  have hthm := c4_chain_evaluation chainReg [] baseCtx hOK
  refine ⟨?_, ?_, ?_, ?_, ?_, ?_, ?_⟩
  · rw [hthm.1 "A"]
    rfl
  · rw [hthm.1 "ghost"]
    rfl
  · rw [hthm.2.2.1 [.rid "A", .rid "ghost"]]
    rfl
  · rw [hthm.2.2.2.1 [.rid "A", .rid "ghost"]]
    rfl
  · rw [hthm.2.2.2.2.1 (.rid "A") []]
    rfl
  · rw [hthm.2.2.2.2.2.1 [.rid "A", .rid "ghost"]]
    rfl
  · exact hthm.2.2.2.2.2.2 "NAND" [.rid "A"] (by decide)

/-! ## C7 — stopPropagation halts rule evaluation -/

/-- Every result produced by `evaluateRule` carries the evaluated rule. -/
theorem evaluateRule_rule (reg : List ConfigRule) (cache : EvalCache)
    (rule : ConfigRule) (ctx : RequestContext) (mids : List String) :
    ((evaluateRule reg cache rule ctx mids).1).rule = rule := by
  unfold evaluateRule
  repeat' split
  all_goals rfl

/-- The evaluation loop: once a matching rule with `stopPropagation` is
appended to the matched accumulator it stays the last matched rule, and
the last recorded result is its own. -/
theorem evalRulesLoop_stop (reg : List ConfigRule) (ctx : RequestContext) :
    ∀ (rules : List ConfigRule) (mids : List String)
      (results : List RuleEvaluationResult) (macc : List ConfigRule)
      (cache : EvalCache),
      (∀ m ∈ macc, m.stopPropagation = false) →
      ∀ r ∈ (evalRulesLoop reg ctx rules mids results macc cache).1,
        r.stopPropagation = true →
        (evalRulesLoop reg ctx rules mids results macc cache).1.getLast? = some r ∧
        ((evalRulesLoop reg ctx rules mids results macc cache).2.getLast?.map
          (·.rule)) = some r := by
  intro rules
  induction rules with
  | nil =>
      intro mids results macc cache hinv r hr hstop
      exact absurd hstop (by simp [hinv r hr])
  | cons rule rest ih =>
      intro mids results macc cache hinv r hr hstop
      rcases he : evaluateRule reg cache rule ctx mids with ⟨res, cache'⟩
      by_cases hm : res.matched = true
      · by_cases hs : rule.stopPropagation = true
        · have hl : evalRulesLoop reg ctx (rule :: rest) mids results macc cache =
              (macc ++ [rule], results ++ [res]) := by
            simp only [evalRulesLoop, he, hm, hs, if_true]
          rw [hl] at hr ⊢
          rcases List.mem_append.mp hr with hmac | hsing
          · exact absurd hstop (by simp [hinv r hmac])
          · have hre : r = rule := by simpa using hsing
            subst hre
            have hrr := evaluateRule_rule reg cache r ctx mids
            rw [he] at hrr
            have hrr' : res.rule = r := hrr
            constructor
            · simp
            · simp [List.getLast?_concat, hrr']
        · have hsf : rule.stopPropagation = false := by
            simpa using hs
          have hl : evalRulesLoop reg ctx (rule :: rest) mids results macc cache =
              evalRulesLoop reg ctx rest (mids ++ [rule.id]) (results ++ [res])
                (macc ++ [rule]) cache' := by
            simp only [evalRulesLoop, he, hm, hsf, if_true, Bool.false_eq_true, if_false]
          rw [hl] at hr ⊢
          refine ih _ _ _ _ ?_ r hr hstop
          intro m hmem
          rcases List.mem_append.mp hmem with h1 | h2
          · exact hinv m h1
          · have : m = rule := by simpa using h2
            subst this
            exact hsf
      · have hmf : res.matched = false := by
          simpa using hm
        have hl : evalRulesLoop reg ctx (rule :: rest) mids results macc cache =
            evalRulesLoop reg ctx rest mids (results ++ [res]) macc cache' := by
          simp only [evalRulesLoop, he, hmf, Bool.false_eq_true, if_false]
        rw [hl] at hr ⊢
        exact ih _ _ _ _ hinv r hr hstop

/-- C7: in every run of `evaluateAllRules`, once a rule with
`stopPropagation = true` matches, no later rule in the evaluation order is
added to the matched list — the stopping rule is the last matched rule —
and evaluation halts immediately: the last recorded result is that rule's
own. -/
theorem c7_stop_propagation_halts (rules : List ConfigRule) (ctx : RequestContext) :
    ∀ r ∈ (evaluateAllRules rules ctx).1, r.stopPropagation = true →
      (evaluateAllRules rules ctx).1.getLast? = some r ∧
      ((evaluateAllRules rules ctx).2.getLast?.map (·.rule)) = some r := by
  intro r hr hstop
  exact evalRulesLoop_stop rules ctx (sortRulesByExecutionOrder rules) [] [] [] []
    (by intro m hm; cases hm) r hr hstop

/-- A matching fixture rule with `stopPropagation` and high priority. -/
def rStop : ConfigRule :=
  { mkRule "stop" with stopPropagation := true, priority := 5 }

/-- A matching fixture rule evaluated after `rStop`. -/
def rAfterStop : ConfigRule := mkRule "after"

/-- C7 witness: with a matching stop rule evaluated first, the theorem
yields that it is the last matched rule and produced the last result —
the later matching rule was never evaluated. -/
theorem c7_stop_propagation_halts_witness :
    (evaluateAllRules [rStop, rAfterStop] baseCtx).1.getLast? = some rStop ∧
    ((evaluateAllRules [rStop, rAfterStop] baseCtx).2.getLast?.map (·.rule)) =
      some rStop := by
  have hm : rStop ∈ (evaluateAllRules [rStop, rAfterStop] baseCtx).1 := by
    show rStop ∈ [rStop]
    simp
  exact c7_stop_propagation_halts [rStop, rAfterStop] baseCtx rStop hm rfl

/-! ## C10 — the conditional loader's cross-request cache -/

/-- C10 (amended): provided both specifications carry a nonempty
`conditionalRules` list — when the list is absent or empty the loader
returns `[]` before consulting the cache — the loader's result depends
only on its cache key: if two calls agree on `userId`, `customContext`,
`featureFlags` and `environment` and their specifications agree on `id`
and `version`, the second call returns exactly the rule set produced by
the first, regardless of every other context field and of any difference
in the specifications' `conditionalRules` or `rules` lists. -/
theorem c10_loader_cache_key_only (st : LoaderCache)
    (spec1 spec2 : ConfigSpecification) (ctx1 ctx2 : RequestContext)
    (rules1 rules2 : List ConfigRule)
    (hid : spec1.id = spec2.id) (hver : spec1.version = spec2.version)
    (huid : ctx1.userId = ctx2.userId)
    (hcc : ctx1.customContext = ctx2.customContext)
    (hff : ctx1.featureFlags = ctx2.featureFlags)
    (henv : ctx1.environment = ctx2.environment)
    (hc1 : ∃ l, spec1.conditionalRules = some l ∧ l ≠ [])
    (hc2 : ∃ l, spec2.conditionalRules = some l ∧ l ≠ []) :
    (loadConditionalRules (loadConditionalRules st spec1 ctx1 rules1).2
       spec2 ctx2 rules2).1 =
    (loadConditionalRules st spec1 ctx1 rules1).1 := by
  have hkey : generateCacheKey ctx1 spec1 = generateCacheKey ctx2 spec2 := by
    unfold generateCacheKey
    rw [huid, hcc, hff, henv, hid, hver]
  obtain ⟨l1, hl1, hne1⟩ := hc1
  obtain ⟨l2, hl2, hne2⟩ := hc2
  cases l1 with
  | nil => exact absurd rfl hne1
  | cons a1 as1 =>
      cases l2 with
      | nil => exact absurd rfl hne2
      | cons a2 as2 =>
          cases hcache : lookupKey st (generateCacheKey ctx1 spec1) with
          | some cached =>
              have h1 : loadConditionalRules st spec1 ctx1 rules1 =
                  (cached.map (·.2), st) := by
                simp only [loadConditionalRules, hl1, hcache]
              have h2 : lookupKey st (generateCacheKey ctx2 spec2) = some cached := by
                rw [← hkey]
                exact hcache
              rw [h1]
              simp only [loadConditionalRules, hl2, h2]
          | none =>
              have h1 : loadConditionalRules st spec1 ctx1 rules1 =
                  ((buildLoadedMap (a1 :: as1) ctx1 spec1 rules1).map (·.2),
                   setKey st (generateCacheKey ctx1 spec1)
                     (buildLoadedMap (a1 :: as1) ctx1 spec1 rules1)) := by
                simp only [loadConditionalRules, hl1, hcache]
              have h2 : lookupKey
                  (setKey st (generateCacheKey ctx1 spec1)
                    (buildLoadedMap (a1 :: as1) ctx1 spec1 rules1))
                  (generateCacheKey ctx2 spec2) =
                  some (buildLoadedMap (a1 :: as1) ctx1 spec1 rules1) := by
                rw [← hkey]
                exact lookupKey_setKey_self _ _ _
              rw [h1]
              simp only [loadConditionalRules, hl2, h2]

/-- The rule gated by the conditional link of the cache fixtures. -/
def ruleBeta : ConfigRule := mkRule "beta"

/-- A conditional link whose (empty) condition list always holds. -/
def condRuleBeta : ConditionalRule := ⟨"beta", [], none⟩

/-- A specification with one conditional rule. -/
def specCond1 : ConfigSpecification :=
  { specW with conditionalRules := some [condRuleBeta], rules := [ruleBeta] }

/-- The same `(id, version)` after a full replacement that emptied the
conditional-rule list. -/
def specCond2 : ConfigSpecification := { specW with conditionalRules := some [] }

/-- C10 (counterexample): the claim promises the second call returns the
first call's cached rule set whenever the contexts agree on the four cache
fields and the specifications agree on id and version, regardless of any
difference in `conditionalRules`.  After a replacement that empties the
list, the loader returns `[]` before ever consulting the cache, while the
first call had cached (and returned) one rule. -/
theorem c10_counterexample_empty_conditional_rules :
    specCond1.id = specCond2.id ∧ specCond1.version = specCond2.version ∧
    (loadConditionalRules [] specCond1 baseCtx [ruleBeta]).1 =
      [{ ruleBeta with enabled := true }] ∧
    (loadConditionalRules (loadConditionalRules [] specCond1 baseCtx [ruleBeta]).2
       specCond2 baseCtx [ruleBeta]).1 = [] ∧
    (loadConditionalRules (loadConditionalRules [] specCond1 baseCtx [ruleBeta]).2
       specCond2 baseCtx [ruleBeta]).1 ≠
      (loadConditionalRules [] specCond1 baseCtx [ruleBeta]).1 := by
  refine ⟨rfl, rfl, rfl, rfl, ?_⟩
  intro h
  have h0 : (0 : Nat) = 1 := congrArg List.length h
  exact absurd h0 (by decide)

/-- A second specification with the same `(id, version)` but different
nonempty conditional rules and rule list. -/
def specCond3 : ConfigSpecification :=
  { specW with conditionalRules := some [⟨"gamma", [], none⟩], rules := [] }

/-- A context agreeing with `baseCtx` on the four cached fields only. -/
def ctxOtherFields : RequestContext :=
  { baseCtx with
      userAgent := "Different/9.9"
      appVersion := "3.2.1"
      os := some "iOS"
      device := some "mobile"
      timestamp := 987654321 }

/-- C10 witness: the amended theorem applied at concrete inputs — the
second call differs in every non-cached context field and in the
specification's rule lists, and still returns the first call's rule set. -/
theorem c10_loader_cache_key_only_witness :
    (loadConditionalRules (loadConditionalRules [] specCond1 baseCtx [ruleBeta]).2
       specCond3 ctxOtherFields []).1 =
    (loadConditionalRules [] specCond1 baseCtx [ruleBeta]).1 := by
  exact c10_loader_cache_key_only [] specCond1 specCond3 baseCtx ctxOtherFields
    [ruleBeta] [] rfl rfl rfl rfl rfl rfl
    ⟨[condRuleBeta], rfl, by simp⟩ ⟨[⟨"gamma", [], none⟩], rfl, by simp⟩

/-! ## C9 — asymmetry of processComposition about unresolved source ids -/

theorem filterMap_length_lt {α β : Type} (f : α → Option β) :
    ∀ l : List α, (∃ a ∈ l, f a = none) → (l.filterMap f).length < l.length := by
  intro l
  induction l with
  | nil => rintro ⟨a, ha, -⟩; cases ha
  | cons a rest ih =>
      rintro ⟨w, hw, hwn⟩
      rcases List.mem_cons.mp hw with rfl | hwr
      · rw [List.filterMap_cons_none hwn]
        calc (rest.filterMap f).length ≤ rest.length := List.length_filterMap_le f rest
          _ < (w :: rest).length := by simp
      · cases hf : f a with
        | none =>
            rw [List.filterMap_cons_none hf]
            calc (rest.filterMap f).length ≤ rest.length := List.length_filterMap_le f rest
              _ < (a :: rest).length := by simp
        | some b =>
            rw [List.filterMap_cons_some hf]
            have := ih ⟨w, hwr, hwn⟩
            simpa using Nat.succ_lt_succ this

/-- The mixin branch's loop is the monadic fold of `applyMixin` over the
mixins that resolve, in order — unresolved ids vanish. -/
theorem mixinLoop_eq_foldlM (allRules : List ConfigRule) :
    ∀ (ids : List String) (acc : ConfigRule),
      mixinLoop allRules acc ids =
        (ids.filterMap (fun id => allRules.find? (fun r => r.id == id))).foldlM
          applyMixin acc := by
  intro ids
  induction ids with
  | nil => intro acc; rfl
  | cons id rest ih =>
      intro acc
      cases hf : allRules.find? (fun r => r.id == id) with
      | none =>
          simp only [List.filterMap_cons, hf]
          simp only [mixinLoop, hf]
          exact ih acc
      | some m =>
          simp only [List.filterMap_cons, hf]
          simp only [mixinLoop, hf, List.foldlM_cons]
          cases ha : applyMixin acc m with
          | error e => rfl
          | ok acc' => exact ih acc'

/-- C9: `processComposition` is asymmetric about unresolved source ids.
For `compose`, any unresolved id raises the source-rule-not-found error;
for `mixin`, the referenced mixins are applied in order via `applyMixin`
and unknown ids are silently skipped (in particular, if none resolve the
rule is returned unchanged, with no error); for both types an absent or
empty `sourceRuleIds` is an error. -/
theorem c9_composition_unresolved_asymmetry (rule : ConfigRule)
    (allRules : List ConfigRule) (comp : RuleComposition)
    (hcomp : rule.composition = some comp) :
    (comp.type = "compose" →
      ∀ ids, comp.sourceRuleIds = some ids → ids ≠ [] →
      (∃ id ∈ ids, allRules.find? (fun r => r.id == id) = none) →
      processComposition rule allRules = .error "Some source rules not found") ∧
    (comp.type = "mixin" →
      ∀ ids, comp.sourceRuleIds = some ids → ids ≠ [] →
      processComposition rule allRules =
        (ids.filterMap (fun id => allRules.find? (fun r => r.id == id))).foldlM
          applyMixin rule) ∧
    (comp.type = "mixin" →
      ∀ ids, comp.sourceRuleIds = some ids → ids ≠ [] →
      (∀ id ∈ ids, allRules.find? (fun r => r.id == id) = none) →
      processComposition rule allRules = .ok rule) ∧
    ((comp.type = "compose" ∨ comp.type = "mixin") →
      (comp.sourceRuleIds = none ∨ comp.sourceRuleIds = some []) →
      ∃ e, processComposition rule allRules = .error e) := by
  refine ⟨?_, ?_, ?_, ?_⟩
  · intro ht ids hs hne hex
    cases ids with
    | nil => exact absurd rfl hne
    | cons i rest =>
        have hlt := filterMap_length_lt
          (fun id => allRules.find? (fun r => r.id == id)) (i :: rest) hex
        have hb : (((i :: rest).filterMap
            (fun id => allRules.find? (fun r => r.id == id))).length !=
            (i :: rest).length) = true := by
          have hne' := Nat.ne_of_lt hlt
          simpa using hne'
        simp only [processComposition, hcomp, ht, hs, hb, if_true]
  · intro ht ids hs hne
    cases ids with
    | nil => exact absurd rfl hne
    | cons i rest =>
        simp only [processComposition, hcomp, ht, hs]
        exact mixinLoop_eq_foldlM allRules (i :: rest) rule
  · intro ht ids hs hne hall
    cases ids with
    | nil => exact absurd rfl hne
    | cons i rest =>
        simp only [processComposition, hcomp, ht, hs]
        rw [mixinLoop_eq_foldlM allRules (i :: rest) rule]
        rw [List.filterMap_eq_nil_iff.mpr (by
          intro a ha
          exact hall a ha)]
        rfl
  · intro ht hs
    rcases ht with ht | ht <;> rcases hs with hs | hs
    · exact ⟨"sourceRuleIds required for compose composition",
        by simp only [processComposition, hcomp, ht, hs]⟩
    · exact ⟨"sourceRuleIds required for compose composition",
        by simp only [processComposition, hcomp, ht, hs]⟩
    · exact ⟨"sourceRuleIds required for mixin composition",
        by simp only [processComposition, hcomp, ht, hs]⟩
    · exact ⟨"sourceRuleIds required for mixin composition",
        by simp only [processComposition, hcomp, ht, hs]⟩

/-- A rule composing an existing and a missing source rule. -/
def ruleComposeBad : ConfigRule :=
  { mkRule "C" with
      composition := some (.mk "compose" none (some ["A", "ghost"]) none) }

/-- A rule mixing in a missing and an existing mixin. -/
def ruleMixinSkip : ConfigRule :=
  { mkRule "M" with
      composition := some (.mk "mixin" none (some ["ghost", "A"]) none) }

/-- A rule mixing in only missing mixins. -/
def ruleMixinAllGhost : ConfigRule :=
  { mkRule "M2" with
      composition := some (.mk "mixin" none (some ["ghost", "phantom"]) none) }

/-- A compose rule with no `sourceRuleIds`. -/
def ruleComposeNone : ConfigRule :=
  { mkRule "C2" with composition := some (.mk "compose" none none none) }

/-- A mixin rule with an empty `sourceRuleIds`. -/
def ruleMixinEmpty : ConfigRule :=
  { mkRule "M3" with composition := some (.mk "mixin" none (some []) none) }

/-- C9 witness: the theorem applied at concrete compositions — a compose
with one unresolved id errors, a mixin with the same kind of unresolved id
silently skips it and applies the resolved mixin, a mixin with only
unresolved ids returns the rule unchanged, and absent or empty source
lists error for both types. -/
theorem c9_composition_unresolved_asymmetry_witness :
    processComposition ruleComposeBad [mkRule "A"] =
      .error "Some source rules not found" ∧
    processComposition ruleMixinSkip [mkRule "A"] =
      ([mkRule "A"].foldlM applyMixin ruleMixinSkip) ∧
    processComposition ruleMixinAllGhost [mkRule "A"] = .ok ruleMixinAllGhost ∧
    (∃ e, processComposition ruleComposeNone [] = .error e) ∧
    (∃ e, processComposition ruleMixinEmpty [] = .error e) := by
  refine ⟨?_, ?_, ?_, ?_, ?_⟩
  · exact (c9_composition_unresolved_asymmetry ruleComposeBad [mkRule "A"]
      (.mk "compose" none (some ["A", "ghost"]) none) rfl).1 rfl
      ["A", "ghost"] rfl (by simp) ⟨"ghost", by simp, rfl⟩
  · have h := (c9_composition_unresolved_asymmetry ruleMixinSkip [mkRule "A"]
      (.mk "mixin" none (some ["ghost", "A"]) none) rfl).2.1 rfl
      ["ghost", "A"] rfl (by simp)
    rw [h]
    rfl
  · exact (c9_composition_unresolved_asymmetry ruleMixinAllGhost [mkRule "A"]
      (.mk "mixin" none (some ["ghost", "phantom"]) none) rfl).2.2.1 rfl
      ["ghost", "phantom"] rfl (by simp) (by intro id h; fin_cases h <;> rfl)
  · exact (c9_composition_unresolved_asymmetry ruleComposeNone []
      (.mk "compose" none none none) rfl).2.2.2 (Or.inl rfl) (Or.inl rfl)
  · exact (c9_composition_unresolved_asymmetry ruleMixinEmpty []
      (.mk "mixin" none (some []) none) rfl).2.2.2 (Or.inr rfl) (Or.inr rfl)

/-! ## C2 — deep merge -/

/-- Processing one source field either fails or assigns some value to its
key and continues with the remaining fields. -/
theorem mergeFields_cons_shape (t : JValue) (acc : List (String × JValue))
    (k1 : String) (v1 : JValue) (rest : List (String × JValue)) :
    (∃ e, mergeFields t acc ((k1, v1) :: rest) = .error e) ∨
    (∃ w, mergeFields t acc ((k1, v1) :: rest) =
      mergeFields t (setKey acc k1 w) rest) := by
  by_cases ho : isObjectInstance v1 = true
  · cases hk : keyInJs k1 t with
    | error e =>
        left
        exact ⟨e, by simp only [mergeFields, ho, if_true, hk]⟩
    | ok inT =>
        by_cases hc : (inT && !(isArr v1)) = true
        · cases hd : deepMerge (getProp t k1) v1 with
          | error e =>
              left
              exact ⟨e, by simp only [mergeFields, ho, if_true, hk, hc, if_true, hd]⟩
          | ok m =>
              right
              exact ⟨m, by simp only [mergeFields, ho, if_true, hk, hc, if_true, hd]⟩
        · right
          have hc' : (inT && !(isArr v1)) = false := by simpa using hc
          exact ⟨v1, by
            simp only [mergeFields, ho, if_true, hk, hc', Bool.false_eq_true, if_false]⟩
  · right
    have ho' : isObjectInstance v1 = false := by simpa using ho
    exact ⟨v1, by simp only [mergeFields, ho', Bool.false_eq_true, if_false]⟩

/-- A key the source does not carry keeps its accumulator entry. -/
theorem mergeFields_untouched (t : JValue) :
    ∀ (sf acc : List (String × JValue)) (k : String)
      (out : List (String × JValue)),
      lookupKey sf k = none → mergeFields t acc sf = .ok out →
      lookupKey out k = lookupKey acc k := by
  intro sf
  induction sf with
  | nil =>
      intro acc k out _ hok
      simp only [mergeFields, Except.ok.injEq] at hok
      rw [← hok]
  | cons kv rest ih =>
      obtain ⟨k1, v1⟩ := kv
      intro acc k out hnone hok
      have hsplit : (k1 == k) = false ∧ lookupKey rest k = none := by
        revert hnone
        simp only [lookupKey]
        by_cases h : (k1 == k) = true
        · rw [if_pos h]
          intro h'
          cases h'
        · rw [if_neg h]
          intro h'
          exact ⟨by simpa using h, h'⟩
      have hkne : k ≠ k1 := by
        intro he
        subst he
        simp at hsplit
      rcases mergeFields_cons_shape t acc k1 v1 rest with ⟨e, he⟩ | ⟨w, hw⟩
      · rw [he] at hok
        cases hok
      · rw [hw] at hok
        rw [ih (setKey acc k1 w) k out hsplit.2 hok]
        exact lookupKey_setKey_ne acc k1 k w hkne

/-- A key absent from an association list's key column reads as none. -/
theorem lookupKey_eq_none_of_not_mem {α : Type} (m : List (String × α)) (k : String)
    (h : k ∉ m.map Prod.fst) : lookupKey m k = none := by
  induction m with
  | nil => rfl
  | cons kv rest ih =>
      obtain ⟨k1, v1⟩ := kv
      simp only [List.map_cons, List.mem_cons, not_or] at h
      simp only [lookupKey]
      rw [if_neg (by simpa using fun he => h.1 he.symm)]
      exact ih h.2

/-- A key the source carries ends up as the claim (amended) describes:
when the source value is a non-array object and the key exists in the
object target, the entry is the recursive merge of the two values;
otherwise the source value replaces the entry. -/
theorem mergeFields_key_obj (tf : List (String × JValue)) :
    ∀ (sf acc : List (String × JValue)) (k : String) (v : JValue)
      (out : List (String × JValue)),
      (sf.map Prod.fst).Nodup →
      lookupKey sf k = some v →
      mergeFields (.obj tf) acc sf = .ok out →
      ((isObjectInstance v && !(isArr v)) = true → hasKey tf k = true →
        ∃ m, deepMerge (getProp (.obj tf) k) v = .ok m ∧ lookupKey out k = some m) ∧
      (((isObjectInstance v && !(isArr v)) = false ∨ hasKey tf k = false) →
        lookupKey out k = some v) := by
  intro sf
  induction sf with
  | nil =>
      intro acc k v out _ hsome _
      cases hsome
  | cons kv rest ih =>
      obtain ⟨k1, v1⟩ := kv
      intro acc k v out hnodup hsome hok
      by_cases hk : (k1 == k) = true
      · have hkeq : k1 = k := by simpa using hk
        subst hkeq
        have hv : v1 = v := by
          simpa [lookupKey, hk] using hsome
        subst hv
        have hrest : lookupKey rest k1 = none := by
          refine lookupKey_eq_none_of_not_mem rest k1 ?_
          have := hnodup
          simp only [List.map_cons, List.nodup_cons] at this
          exact this.1
        by_cases hobj : isObjectInstance v1 = true
        · have hkin : keyInJs k1 (.obj tf) = .ok (hasKey tf k1) := rfl
          by_cases hhas : hasKey tf k1 = true
          · by_cases harr : isArr v1 = true
            · -- source value is an array: replacement branch
              have hc : (hasKey tf k1 && !(isArr v1)) = false := by
                simp [harr]
              have hstep : mergeFields (.obj tf) acc ((k1, v1) :: rest) =
                  mergeFields (.obj tf) (setKey acc k1 v1) rest := by
                simp only [mergeFields, hobj, if_true, hkin, hc,
                  Bool.false_eq_true, if_false]
              rw [hstep] at hok
              have hout := mergeFields_untouched (.obj tf) rest _ k1 out hrest hok
              rw [lookupKey_setKey_self] at hout
              constructor
              · intro hboth _
                simp [hobj, harr] at hboth
              · intro _
                exact hout
            · -- both mappings: recursion branch
              have harr' : isArr v1 = false := by simpa using harr
              have hc : (hasKey tf k1 && !(isArr v1)) = true := by
                simp [hhas, harr']
              cases hd : deepMerge (getProp (.obj tf) k1) v1 with
              | error e =>
                  have hstep : mergeFields (.obj tf) acc ((k1, v1) :: rest) =
                      .error e := by
                    simp only [mergeFields, hobj, if_true, hkin, hc, if_true, hd]
                  rw [hstep] at hok
                  cases hok
              | ok m =>
                  have hstep : mergeFields (.obj tf) acc ((k1, v1) :: rest) =
                      mergeFields (.obj tf) (setKey acc k1 m) rest := by
                    simp only [mergeFields, hobj, if_true, hkin, hc, if_true, hd]
                  rw [hstep] at hok
                  have hout := mergeFields_untouched (.obj tf) rest _ k1 out hrest hok
                  rw [lookupKey_setKey_self] at hout
                  constructor
                  · intro _ _
                    exact ⟨m, rfl, hout⟩
                  · intro hdisj
                    rcases hdisj with hfalse | hfalse
                    · simp [hobj, harr'] at hfalse
                    · simp [hfalse] at hhas
          · -- key absent from the target: replacement branch
            have hhas' : hasKey tf k1 = false := by simpa using hhas
            have hc : (hasKey tf k1 && !(isArr v1)) = false := by
              simp [hhas']
            have hstep : mergeFields (.obj tf) acc ((k1, v1) :: rest) =
                mergeFields (.obj tf) (setKey acc k1 v1) rest := by
              simp only [mergeFields, hobj, if_true, hkin, hc,
                Bool.false_eq_true, if_false]
            rw [hstep] at hok
            have hout := mergeFields_untouched (.obj tf) rest _ k1 out hrest hok
            rw [lookupKey_setKey_self] at hout
            constructor
            · intro _ hhas2
              simp [hhas2] at hhas'
            · intro _
              exact hout
        · -- source value is not an object: replacement branch
          have hobj' : isObjectInstance v1 = false := by simpa using hobj
          have hstep : mergeFields (.obj tf) acc ((k1, v1) :: rest) =
              mergeFields (.obj tf) (setKey acc k1 v1) rest := by
            simp only [mergeFields, hobj', Bool.false_eq_true, if_false]
          rw [hstep] at hok
          have hout := mergeFields_untouched (.obj tf) rest _ k1 out hrest hok
          rw [lookupKey_setKey_self] at hout
          constructor
          · intro hboth _
            simp [hobj'] at hboth
          · intro _
            exact hout
      · -- a different source field: step over it
        have hrest : lookupKey rest k = some v := by
          simpa [lookupKey, hk] using hsome
        have hnodup' : (rest.map Prod.fst).Nodup := by
          simp only [List.map_cons, List.nodup_cons] at hnodup
          exact hnodup.2
        rcases mergeFields_cons_shape (.obj tf) acc k1 v1 rest with ⟨e, he⟩ | ⟨w, hw⟩
        · rw [he] at hok
          cases hok
        · rw [hw] at hok
          exact ih (setKey acc k1 w) k v out hnodup' hrest hok

/-- C2 (counterexample): the claim says right's value replaces left's
whenever the two values are not both mappings.  The source only checks
that the RIGHT value is a non-array object: with `left.k = [1, 2]` (an
array, not a mapping) and `right.k = \x7b a: 1 \x7d`, the code recurses,
spreading the array into index keys instead of replacing it — the result
at `k` keeps the array entries `"0"` and `"1"` alongside `"a"`. -/
theorem c2_counterexample_array_left :
    deepMerge (.obj [("k", .arr [.num 1, .num 2])])
        (.obj [("k", .obj [("a", .num 1)])]) =
      .ok (.obj [("k", .obj [("0", .num 1), ("1", .num 2), ("a", .num 1)])]) ∧
    (JValue.obj [("0", .num 1), ("1", .num 2), ("a", .num 1)]) ≠
      (JValue.obj [("a", .num 1)]) := by
  refine ⟨rfl, ?_⟩
  intro h
  have h1 := (JValue.obj.injEq _ _).mp h
  have h2 := (List.cons.injEq _ _ _ _).mp h1
  have h3 := (Prod.mk.injEq _ _ _ _).mp h2.1
  exact absurd h3.1 (by decide)

/-- C2 (amended): for object documents `left` and `right` (duplicate-free
keys on the right, as JS objects guarantee), whenever the merge succeeds:
every key present only in `left` is retained with its original value; for
each key of `right`, if right's value is a mapping (not an array) and the
key exists in `left` — regardless of the shape of left's value — the
result entry is the recursive merge of left's value into right's,
otherwise right's value (in particular every array) replaces left's.
Inputs are never mutated: the embedding is pure, mirroring the source's
fresh result object. -/
theorem c2_deep_merge_amended (tf sf : List (String × JValue))
    (hnodup : (sf.map Prod.fst).Nodup) (res : JValue)
    (hok : deepMerge (.obj tf) (.obj sf) = .ok res) :
    ∃ out, res = .obj out ∧
      (∀ k, lookupKey sf k = none → lookupKey out k = lookupKey tf k) ∧
      (∀ k v, lookupKey sf k = some v →
        ((isObjectInstance v && !(isArr v)) = true → hasKey tf k = true →
          ∃ m, deepMerge (getProp (.obj tf) k) v = .ok m ∧
            lookupKey out k = some m) ∧
        (((isObjectInstance v && !(isArr v)) = false ∨ hasKey tf k = false) →
          lookupKey out k = some v)) := by
  have hunfold : deepMerge (.obj tf) (.obj sf) =
      Except.map JValue.obj (mergeFields (.obj tf) tf sf) := rfl
  rw [hunfold] at hok
  cases hm : mergeFields (.obj tf) tf sf with
  | error e =>
      rw [hm] at hok
      cases hok
  | ok out =>
      rw [hm] at hok
      refine ⟨out, ?_, ?_, ?_⟩
      · cases hok
        rfl
      · intro k hknone
        exact mergeFields_untouched (.obj tf) sf tf k out hknone hm
      · intro k v hksome
        exact mergeFields_key_obj tf sf tf k v out hnodup hksome hm

/-- The left document of the C2 witness. -/
def tfW : List (String × JValue) :=
  [("a", .num 1), ("n", .obj [("x", .num 1)]), ("arr", .arr [.num 1])]

/-- The right document of the C2 witness. -/
def sfW : List (String × JValue) :=
  [("n", .obj [("y", .num 2)]), ("arr", .arr [.num 9]), ("b", .num 7)]

/-- C2 witness: the amended theorem applied to concrete documents —
key `a` (only in the left) is retained, the nested mappings under `n` are
merged recursively, the array under `arr` is replaced atomically, and the
fresh key `b` is copied. -/
theorem c2_deep_merge_amended_witness :
    ∃ out,
      JValue.obj
        [("a", .num 1), ("n", .obj [("x", .num 1), ("y", .num 2)]),
         ("arr", .arr [.num 9]), ("b", .num 7)] = .obj out ∧
      lookupKey out "a" = lookupKey tfW "a" ∧
      (∃ m, deepMerge (getProp (.obj tfW) "n") (.obj [("y", .num 2)]) = .ok m ∧
        lookupKey out "n" = some m) ∧
      lookupKey out "arr" = some (.arr [.num 9]) ∧
      lookupKey out "b" = some (.num 7) := by
  obtain ⟨out, hres, huntouched, hkey⟩ := c2_deep_merge_amended tfW sfW
    (by decide)
    (.obj [("a", .num 1), ("n", .obj [("x", .num 1), ("y", .num 2)]),
      ("arr", .arr [.num 9]), ("b", .num 7)]) rfl
  refine ⟨out, hres, huntouched "a" rfl, ?_, ?_, ?_⟩
  · exact (hkey "n" (.obj [("y", .num 2)]) rfl).1 rfl rfl
  · exact (hkey "arr" (.arr [.num 9]) rfl).2 (Or.inl rfl)
  · exact (hkey "b" (.num 7) rfl).2 (Or.inl rfl)

/-! ## C8 — the topological sort terminates and permutes its input -/

theorem idxFind_lt (id : String) :
    ∀ (rules : List ConfigRule) (j : Nat), idxFind rules id = some j →
      j < rules.length := by
  intro rules
  induction rules with
  | nil => intro j h; cases h
  | cons r rest ih =>
      intro j h
      simp only [idxFind] at h
      by_cases hr : (r.id == id) = true
      · rw [if_pos hr] at h
        cases h
        simp
      · rw [if_neg hr] at h
        cases hf : idxFind rest id with
        | none => rw [hf] at h; cases h
        | some j' =>
            rw [hf] at h
            have hj : j = j' + 1 := by
              have hsome : some (j' + 1) = some j := h
              exact (Option.some.inj hsome).symm
            subst hj
            have := ih j' hf
            simpa using Nat.succ_lt_succ this

theorem idxFind_rid (id : String) :
    ∀ (rules : List ConfigRule) (j : Nat), idxFind rules id = some j →
      ridAt rules j = id := by
  intro rules
  induction rules with
  | nil => intro j h; cases h
  | cons r rest ih =>
      intro j h
      simp only [idxFind] at h
      by_cases hr : (r.id == id) = true
      · rw [if_pos hr] at h
        cases h
        simp only [ridAt, List.getElem?_cons_zero]
        simpa using hr
      · rw [if_neg hr] at h
        cases hf : idxFind rest id with
        | none => rw [hf] at h; cases h
        | some j' =>
            rw [hf] at h
            have hj : j = j' + 1 := by
              have hsome : some (j' + 1) = some j := h
              exact (Option.some.inj hsome).symm
            subst hj
            have := ih j' hf
            simpa only [ridAt, List.getElem?_cons_succ] using this

theorem insertQ_perm (rules : List ConfigRule) (i : Nat) :
    ∀ q : List Nat, (insertQ rules i q).Perm (i :: q) := by
  intro q
  induction q with
  | nil => exact List.Perm.refl _
  | cons j rest ih =>
      simp only [insertQ]
      by_cases h : prioAt rules j ≥ prioAt rules i
      · rw [if_pos h]
        exact (ih.cons j).trans (List.Perm.swap i j rest)
      · rw [if_neg h]

theorem foldl_insertQ_perm (rules : List ConfigRule) :
    ∀ (is : List Nat) (q0 : List Nat),
      (is.foldl (fun q i => insertQ rules i q) q0).Perm (is ++ q0) := by
  intro is
  induction is with
  | nil => intro q0; exact List.Perm.refl _
  | cons i rest ih =>
      intro q0
      simp only [List.foldl_cons, List.cons_append]
      refine ((ih (insertQ rules i q0)).trans ?_)
      refine (List.Perm.append_left rest (insertQ_perm rules i q0)).trans ?_
      exact List.perm_middle

/-- The loop invariant of the Kahn phase: popped and queued indices are
distinct valid positions of the input, and whenever the first index
carrying an id is among them, that id's in-degree has already dropped to
zero or below — so it can never be pushed a second time. -/
def KahnINV (rules : List ConfigRule) (deg : List (String × Int))
    (sorted queue : List Nat) : Prop :=
  (sorted ++ queue).Nodup ∧
  (∀ i ∈ sorted ++ queue, i < rules.length) ∧
  (∀ s j, idxFind rules s = some j → j ∈ sorted ++ queue →
    (lookupKey deg s).getD 0 ≤ 0)

theorem processDependents_inv (rules : List ConfigRule) (sorted : List Nat) :
    ∀ (deps : List String) (queue : List Nat) (deg : List (String × Int)),
      KahnINV rules deg sorted queue →
      KahnINV rules (processDependents rules deps queue deg).2 sorted
        (processDependents rules deps queue deg).1 := by
  intro deps
  induction deps with
  | nil => intro queue deg h; exact h
  | cons depId rest ih =>
      intro queue deg h
      obtain ⟨hnd, hlt, hdeg⟩ := h
      by_cases hz : (((lookupKey deg depId).getD 0 - 1) == 0) = true
      · cases hidx : idxFind rules depId with
        | some j =>
            have hstep : processDependents rules (depId :: rest) queue deg =
                processDependents rules rest (insertQ rules j queue)
                  (setKey deg depId ((lookupKey deg depId).getD 0 - 1)) := by
              simp only [processDependents, List.foldl_cons, hz, hidx, if_true]
            rw [hstep]
            have hone : (lookupKey deg depId).getD 0 = 1 := by
              have hz' : (lookupKey deg depId).getD 0 - 1 = 0 := by simpa using hz
              omega
            have hfresh : j ∉ sorted ++ queue := by
              intro hmem
              have := hdeg depId j hidx hmem
              omega
            have hperm : (sorted ++ insertQ rules j queue).Perm
                (sorted ++ j :: queue) :=
              List.Perm.append_left sorted (insertQ_perm rules j queue)
            refine ih _ _ ⟨?_, ?_, ?_⟩
            · rw [hperm.nodup_iff]
              exact List.nodup_middle.mpr (List.nodup_cons.mpr ⟨hfresh, hnd⟩)
            · intro i hi
              have hi' := hperm.mem_iff.mp hi
              rcases List.mem_append.mp hi' with hiL | hiR
              · exact hlt i (List.mem_append.mpr (Or.inl hiL))
              · rcases List.mem_cons.mp hiR with rfl | hiq
                · exact idxFind_lt depId rules i hidx
                · exact hlt i (List.mem_append.mpr (Or.inr hiq))
            · intro s j' hfind hmem
              have hmem' := hperm.mem_iff.mp hmem
              by_cases hs : s = depId
              · subst hs
                rw [lookupKey_setKey_self]
                have hz' : (lookupKey deg s).getD 0 - 1 = 0 := by simpa using hz
                simp [hz']
              · rw [lookupKey_setKey_ne deg depId s _ hs]
                rcases List.mem_append.mp hmem' with hL | hR
                · exact hdeg s j' hfind (List.mem_append.mpr (Or.inl hL))
                · rcases List.mem_cons.mp hR with rfl | hq
                  · have h1 := idxFind_rid s rules j' hfind
                    have h2 := idxFind_rid depId rules j' hidx
                    exact absurd (h1.symm.trans h2) hs
                  · exact hdeg s j' hfind (List.mem_append.mpr (Or.inr hq))
        | none =>
            have hstep : processDependents rules (depId :: rest) queue deg =
                processDependents rules rest queue
                  (setKey deg depId ((lookupKey deg depId).getD 0 - 1)) := by
              simp only [processDependents, List.foldl_cons, hz, hidx, if_true]
            rw [hstep]
            refine ih _ _ ⟨hnd, hlt, ?_⟩
            intro s j' hfind hmem
            by_cases hs : s = depId
            · subst hs
              rw [hfind] at hidx
              cases hidx
            · rw [lookupKey_setKey_ne deg depId s _ hs]
              exact hdeg s j' hfind hmem
      · have hstep : processDependents rules (depId :: rest) queue deg =
            processDependents rules rest queue
              (setKey deg depId ((lookupKey deg depId).getD 0 - 1)) := by
          simp only [processDependents, List.foldl_cons, hz, Bool.false_eq_true,
            if_false]
        rw [hstep]
        refine ih _ _ ⟨hnd, hlt, ?_⟩
        intro s j' hfind hmem
        by_cases hs : s = depId
        · subst hs
          rw [lookupKey_setKey_self]
          have := hdeg s j' hfind hmem
          simp only [Option.getD_some]
          omega
        · rw [lookupKey_setKey_ne deg depId s _ hs]
          exact hdeg s j' hfind hmem

theorem kahnLoop_inv (rules : List ConfigRule) (graph : List (String × List String)) :
    ∀ (fuel : Nat) (queue : List Nat) (deg : List (String × Int)) (sorted : List Nat),
      KahnINV rules deg sorted queue →
      (kahnLoop rules graph fuel queue deg sorted).Nodup ∧
      (∀ i ∈ kahnLoop rules graph fuel queue deg sorted, i < rules.length) := by
  intro fuel
  induction fuel with
  | zero =>
      intro queue deg sorted h
      obtain ⟨hnd, hlt, -⟩ := h
      simp only [kahnLoop]
      exact ⟨(List.nodup_append.mp hnd).1,
        fun i hi => hlt i (List.mem_append.mpr (Or.inl hi))⟩
  | succ fuel ih =>
      intro queue deg sorted h
      cases queue with
      | nil =>
          obtain ⟨hnd, hlt, -⟩ := h
          simp only [kahnLoop]
          exact ⟨(List.nodup_append.mp hnd).1,
            fun i hi => hlt i (List.mem_append.mpr (Or.inl hi))⟩
      | cons i rest =>
          have hstep : kahnLoop rules graph (fuel + 1) (i :: rest) deg sorted =
              kahnLoop rules graph fuel
                (processDependents rules ((lookupKey graph (ridAt rules i)).getD [])
                  rest deg).1
                (processDependents rules ((lookupKey graph (ridAt rules i)).getD [])
                  rest deg).2
                (sorted ++ [i]) := rfl
          rw [hstep]
          apply ih
          refine processDependents_inv rules (sorted ++ [i]) _ rest deg ?_
          obtain ⟨hnd, hlt, hdeg⟩ := h
          have hre : (sorted ++ [i]) ++ rest = sorted ++ i :: rest := by simp
          refine ⟨?_, ?_, ?_⟩
          · rw [hre]
            exact hnd
          · intro x hx
            rw [hre] at hx
            exact hlt x hx
          · intro s j hfind hmem
            rw [hre] at hmem
            exact hdeg s j hfind hmem

theorem kahn_initial_inv (rules : List ConfigRule) (deg : List (String × Int)) :
    KahnINV rules deg []
      (((List.range rules.length).filter
        (fun i => (((lookupKey deg (ridAt rules i)).getD 0) == 0))).foldl
        (fun q i => insertQ rules i q) []) := by
  have hperm := foldl_insertQ_perm rules
    ((List.range rules.length).filter
      (fun i => (((lookupKey deg (ridAt rules i)).getD 0) == 0))) []
  rw [List.append_nil] at hperm
  refine ⟨?_, ?_, ?_⟩
  · simp only [List.nil_append]
    exact hperm.nodup_iff.mpr ((List.nodup_range _).filter _)
  · intro x hx
    simp only [List.nil_append] at hx
    have := hperm.mem_iff.mp hx
    exact List.mem_range.mp (List.mem_filter.mp this).1
  · intro s j hfind hmem
    simp only [List.nil_append] at hmem
    have hj := hperm.mem_iff.mp hmem
    have hcond := (List.mem_filter.mp hj).2
    have hrid := idxFind_rid s rules j hfind
    rw [hrid] at hcond
    have : (lookupKey deg s).getD 0 = 0 := by simpa using hcond
    omega

theorem order_append_leftover_perm (n : Nat) (o : List Nat)
    (hnd : o.Nodup) (hlt : ∀ i ∈ o, i < n) :
    (o ++ (List.range n).filter (fun i => !(o.contains i))).Perm (List.range n) := by
  refine (List.perm_ext_iff_of_nodup ?_ (List.nodup_range n)).mpr ?_
  · rw [List.nodup_append]
    refine ⟨hnd, (List.nodup_range n).filter _, ?_⟩
    intro a ha hafilter
    have hcond := (List.mem_filter.mp hafilter).2
    simp only [Bool.not_eq_true'] at hcond
    have : a ∉ o := by simpa using hcond
    exact this ha
  · intro a
    constructor
    · intro hmem
      rcases List.mem_append.mp hmem with h1 | h2
      · exact List.mem_range.mpr (hlt a h1)
      · exact (List.mem_filter.mp h2).1
    · intro hr
      by_cases hin : a ∈ o
      · exact List.mem_append.mpr (Or.inl hin)
      · refine List.mem_append.mpr (Or.inr (List.mem_filter.mpr ⟨hr, ?_⟩))
        simp [hin]

theorem range_filterMap_getElem {α : Type} (l : List α) :
    (List.range l.length).filterMap (fun i => l[i]?) = l := by
  induction l with
  | nil => rfl
  | cons a rest ih =>
      rw [List.length_cons, List.range_succ_eq_map]
      simp only [List.filterMap_cons, List.getElem?_cons_zero, List.filterMap_map]
      have hcomp : ((fun i => (a :: rest)[i]?) ∘ Nat.succ) = fun i => rest[i]? := by
        funext i
        simp
      rw [hcomp, ih]

/-- C8: for every finite rule list — including lists whose
`executeAfter`/`executeBefore` constraints form cycles or reference absent
rule ids — `sortRulesByExecutionOrder` terminates (it is a total function
of this development, its Kahn loop consuming explicit fuel that its
at-most-once push discipline never exhausts) and returns a permutation of
its input: the Kahn phase visits distinct input positions and the leftover
phase appends exactly the unvisited ones in input order. -/
theorem c8_sort_terminates_permutation (rules : List ConfigRule) :
    (sortRulesByExecutionOrder rules).Perm rules := by
  have hinit := kahn_initial_inv rules (buildOrderMaps rules).2
  have hkahn := kahnLoop_inv rules (buildOrderMaps rules).1 (rules.length + 1)
    (((List.range rules.length).filter
      (fun i => (((lookupKey (buildOrderMaps rules).2 (ridAt rules i)).getD 0) == 0))).foldl
      (fun q i => insertQ rules i q) [])
    (buildOrderMaps rules).2 [] hinit
  have hperm := order_append_leftover_perm rules.length _ hkahn.1 hkahn.2
  have hfinal := hperm.filterMap (fun i => rules[i]?)
  rw [range_filterMap_getElem rules] at hfinal
  exact hfinal
